import Mathlib

/-!
Verification development for the `sar-rs` rendering core
(`src/sar-core/src/renderer/draw.rs`).

The drawing pipeline is shallowly embedded: machine integers (`u8`, `u32`,
`usize`) become `Nat`, and the `f32` arithmetic of the external `image` /
`imageproc` crates is modelled with exact rational arithmetic (`ℚ`), with the
final cast back to bytes modelled as truncation (`floor`), exactly following
the structure of the crate formulas.  Fallible or panicking code paths are
made explicit (`Option` / `POut`).
-/

namespace SarCore

/-- Modelled from the spec: `Color`, an RGBA color with four 8-bit channels
(spec §3; its definition lives in `src/sar-core/src/core/sa.rs`, which is not
among the provided sources). -/
structure Color where
  r : Nat
  g : Nat
  b : Nat
  a : Nat
deriving DecidableEq, Repr

/-- The all-zero (fully transparent) RGBA pixel, `image::Rgba([0; 4])`. -/
def transparentC : Color := ⟨0, 0, 0, 0⟩

/-- Floor of a rational number as an integer (`Int.fdiv` of the reduced
numerator and denominator). -/
def ratFloor (q : ℚ) : Int := Int.fdiv q.num (q.den : Int)

/-- Models the `NumCast::from(f : f32).unwrap()` conversion to `u8` applied to
the nonnegative in-range values produced by blending: truncation toward zero. -/
def byteOf (q : ℚ) : Nat := (ratFloor q).toNat

/-- Models `f32::round`: round half away from zero. -/
def ratRound (q : ℚ) : Int :=
  if 0 ≤ q then ratFloor (q + 1/2) else -ratFloor (-q + 1/2)

/-- Models the `as u32` cast of a nonnegative `f32` product: truncation, with
negative values saturating to zero. -/
def natOfRat (q : ℚ) : Nat := (ratFloor q).toNat

/-- Models `image::Rgba::<u8>::blend` (alpha compositing, source-over), the
pixel blend used both by `render_symbol` and by `imageops::overlay`.  The
`f32` arithmetic of the crate is carried out exactly in `ℚ` and the final
`NumCast` back to `u8` is truncation. -/
def blend (bg fg : Color) : Color :=
  if fg.a = 0 then bg
  else if fg.a = 255 then fg
  else
    let maxT : ℚ := 255
    let bgA : ℚ := (bg.a : ℚ) / maxT
    let fgA : ℚ := (fg.a : ℚ) / maxT
    let alphaFinal : ℚ := bgA + (1 - bgA) * fgA
    if alphaFinal = 0 then bg
    else
      let bgRA : ℚ := (bg.r : ℚ) / maxT * bgA
      let bgGA : ℚ := (bg.g : ℚ) / maxT * bgA
      let bgBA : ℚ := (bg.b : ℚ) / maxT * bgA
      let fgRA : ℚ := (fg.r : ℚ) / maxT * fgA
      let fgGA : ℚ := (fg.g : ℚ) / maxT * fgA
      let fgBA : ℚ := (fg.b : ℚ) / maxT * fgA
      let outRA : ℚ := fgRA + bgRA * (1 - fgA)
      let outGA : ℚ := fgGA + bgGA * (1 - fgA)
      let outBA : ℚ := fgBA + bgBA * (1 - fgA)
      { r := byteOf (maxT * (outRA / alphaFinal))
        g := byteOf (maxT * (outGA / alphaFinal))
        b := byteOf (maxT * (outBA / alphaFinal))
        a := byteOf (maxT * alphaFinal) }

/-- An RGBA image (`image::RgbaImage`): explicit dimensions and a pixel
lookup function.  Out-of-bounds panics of `get_pixel` are modelled at the
call sites that can reach them. -/
structure Img where
  w : Nat
  h : Nat
  pix : Nat → Nat → Color

/-- Models `RgbaImage::new` (and `RgbaImage::from_pixel` with `Rgba([0;4])`):
a fully transparent image of the given dimensions. -/
def Img.new (w h : Nat) : Img := ⟨w, h, fun _ _ => transparentC⟩

/-- Extensional pixel equality of two images: same dimensions and the same
color at every in-bounds coordinate. -/
def sameImage (i₁ i₂ : Img) : Prop :=
  i₁.w = i₂.w ∧ i₁.h = i₂.h ∧
    ∀ x, x < i₁.w → ∀ y, y < i₁.h → i₁.pix x y = i₂.pix x y

instance (i₁ i₂ : Img) : Decidable (sameImage i₁ i₂) := by
  unfold sameImage; infer_instance

/-- Models `image::imageops::overlay(&mut bottom, &top, 0, 0)`: blend every
pixel of `top` over `bottom` in the shared region (the crate clamps the range
to the common dimensions; `draw_with_scale` always calls it with equal
dimensions and offset `(0, 0)`). -/
def overlay (bottom top : Img) : Img :=
  Img.mk bottom.w bottom.h (fun x y =>
    if x < min bottom.w top.w ∧ y < min bottom.h top.h then
      blend (bottom.pix x y) (top.pix x y)
    else bottom.pix x y)

/-- A 3×3 matrix of rationals, the carrier of a perspective transform. -/
structure Mat3 where
  m00 : ℚ
  m01 : ℚ
  m02 : ℚ
  m10 : ℚ
  m11 : ℚ
  m12 : ℚ
  m20 : ℚ
  m21 : ℚ
  m22 : ℚ
deriving DecidableEq, Repr

/-- Determinant of a 3×3 matrix. -/
def det3 (m : Mat3) : ℚ :=
  m.m00 * (m.m11 * m.m22 - m.m12 * m.m21)
    - m.m01 * (m.m10 * m.m22 - m.m12 * m.m20)
    + m.m02 * (m.m10 * m.m21 - m.m11 * m.m20)

/-- Matrix product of two 3×3 matrices. -/
def mul3 (p q : Mat3) : Mat3 :=
  { m00 := p.m00 * q.m00 + p.m01 * q.m10 + p.m02 * q.m20
    m01 := p.m00 * q.m01 + p.m01 * q.m11 + p.m02 * q.m21
    m02 := p.m00 * q.m02 + p.m01 * q.m12 + p.m02 * q.m22
    m10 := p.m10 * q.m00 + p.m11 * q.m10 + p.m12 * q.m20
    m11 := p.m10 * q.m01 + p.m11 * q.m11 + p.m12 * q.m21
    m12 := p.m10 * q.m02 + p.m11 * q.m12 + p.m12 * q.m22
    m20 := p.m20 * q.m00 + p.m21 * q.m10 + p.m22 * q.m20
    m21 := p.m20 * q.m01 + p.m21 * q.m11 + p.m22 * q.m21
    m22 := p.m20 * q.m02 + p.m21 * q.m12 + p.m22 * q.m22 }

/-- Inverse of a 3×3 matrix via the adjugate, `none` when singular. -/
def inv3 (m : Mat3) : Option Mat3 :=
  let d := det3 m
  if d = 0 then none
  else some
    { m00 := (m.m11 * m.m22 - m.m12 * m.m21) / d
      m01 := (m.m02 * m.m21 - m.m01 * m.m22) / d
      m02 := (m.m01 * m.m12 - m.m02 * m.m11) / d
      m10 := (m.m12 * m.m20 - m.m10 * m.m22) / d
      m11 := (m.m00 * m.m22 - m.m02 * m.m20) / d
      m12 := (m.m02 * m.m10 - m.m00 * m.m12) / d
      m20 := (m.m10 * m.m21 - m.m11 * m.m20) / d
      m21 := (m.m01 * m.m20 - m.m00 * m.m21) / d
      m22 := (m.m00 * m.m11 - m.m01 * m.m10) / d }

/-- The homography carrying the projective basis to the four given points
(`none` when the points are degenerate): the standard construction used to
realise `imageproc`'s four-point perspective solver exactly over `ℚ`. -/
def homBasis (p1 p2 p3 p4 : ℚ × ℚ) : Option Mat3 :=
  let d := det3 ⟨p1.1, p2.1, p3.1, p1.2, p2.2, p3.2, 1, 1, 1⟩
  if d = 0 then none
  else
    let c1 := det3 ⟨p4.1, p2.1, p3.1, p4.2, p2.2, p3.2, 1, 1, 1⟩ / d
    let c2 := det3 ⟨p1.1, p4.1, p3.1, p1.2, p4.2, p3.2, 1, 1, 1⟩ / d
    let c3 := det3 ⟨p1.1, p2.1, p4.1, p1.2, p2.2, p4.2, 1, 1, 1⟩ / d
    some ⟨c1 * p1.1, c2 * p2.1, c3 * p3.1,
          c1 * p1.2, c2 * p2.2, c3 * p3.2,
          c1, c2, c3⟩

/-- A perspective transform together with its inverse, as stored by
`imageproc::geometric_transformations::Projection`. -/
structure Projection where
  fwd : Mat3
  bwd : Mat3
deriving DecidableEq, Repr

/-- Models `Projection::from_control_points` at its interface (spec §4.1):
the unique perspective transform carrying the four source control points to
the four destination points, `none` when the correspondence is degenerate.
The crate solves the system in `f32`; here it is solved exactly in `ℚ` by
composing basis homographies. -/
def from_control_points (f1 f2 f3 f4 t1 t2 t3 t4 : ℚ × ℚ) : Option Projection := do
  let mf ← homBasis f1 f2 f3 f4
  let mt ← homBasis t1 t2 t3 t4
  let mfInv ← inv3 mf
  let fwd := mul3 mt mfInv
  let bwd ← inv3 fwd
  some ⟨fwd, bwd⟩

/-- Apply the inverse transform to a destination coordinate.  A zero
homogeneous coordinate produces a non-finite position in the crate, which the
nearest-neighbor sampler then rejects; this is modelled as `none`. -/
def Projection.applyInv (P : Projection) (x y : ℚ) : Option (ℚ × ℚ) :=
  let m := P.bwd
  let w := m.m20 * x + m.m21 * y + m.m22
  if w = 0 then none
  else some ((m.m00 * x + m.m01 * y + m.m02) / w, (m.m10 * x + m.m11 * y + m.m12) / w)

/-- Models `imageproc::geometric_transformations::warp_into` with
`Interpolation::Nearest` and a default pixel: every output pixel is the
nearest-neighbor sample of `src` at the inverse-projected position, or the
default when that position falls outside `src`. -/
def warp_into (src : Img) (P : Projection) (defaultPx : Color) (out : Img) : Img :=
  Img.mk out.w out.h (fun x y =>
    if x < out.w ∧ y < out.h then
      match P.applyInv (x : ℚ) (y : ℚ) with
      | none => defaultPx
      | some q =>
        let rx := ratRound q.1
        let ry := ratRound q.2
        if 0 ≤ rx ∧ rx < (src.w : Int) ∧ 0 ≤ ry ∧ ry < (src.h : Int) then
          src.pix rx.toNat ry.toNat
        else defaultPx
    else out.pix x y)

/-- Modelled from the spec: `Point`, a 2D coordinate in composition-logical
space (spec §3; defined in `src/sar-core/src/core/sa.rs`, not among the
provided sources).  The `f32` coordinates are modelled as rationals. -/
structure Point where
  x : ℚ
  y : ℚ
deriving DecidableEq, Repr

/-- Modelled from the spec: one layer of a composition, the accessor
interface of the `SymbolArtLayer` trait (spec §3; the trait lives in
`src/sar-core/src/core/sa.rs`, not among the provided sources):
`symbol().id()`, the four corners, `color()` and `is_hidden()`. -/
structure Layer where
  symbolId : Nat
  topLeft : Point
  topRight : Point
  bottomRight : Point
  bottomLeft : Point
  color : Color
  hidden : Bool
deriving Repr

/-- Modelled from the spec: a parsed composition — logical width/height and
an ordered list of layers (spec §3; the `SymbolArt` trait lives in
`src/sar-core/src/core/sa.rs`, not among the provided sources). -/
structure SymbolArt where
  width : Nat
  height : Nat
  layers : List Layer

/-- Modelled from the spec: a resource-cache entry, either a fixed-color
bitmap (`resource::Image::Color`, rendered as-is) or a colorable alpha-mask
bitmap (spec §3; `src/sar-core/src/renderer/resource.rs` is not among the
provided sources). -/
inductive ResImage where
  | color (img : Img)
  | symbol (img : Img)

/-- The underlying bitmap of a cache entry (`image.inner().to_image()`). -/
def ResImage.inner : ResImage → Img
  | .color img => img
  | .symbol img => img

/-- Modelled from the spec: the symbol resource cache — a fixed symbol bitmap
pixel size and a lookup from symbol id to cache entry (spec §3;
`src/sar-core/src/renderer/resource.rs` is not among the provided sources). -/
structure Resource where
  symbolPixels : Nat
  getImage : Nat → Option ResImage

/-- Modelled from the spec: the renderer error kinds surfaced by the core
(spec §7; `src/sar-core/src/core/result.rs` is not among the provided
sources).  Only the two variants constructed by `draw.rs` are needed. -/
inductive SARError where
  | projectionError (src dst : List (ℚ × ℚ))
  | symbolNotFound (symbolId : Nat)
deriving DecidableEq, Repr

/-- The `SymbolArtDrawer` configuration: resource cache, working canvas size
(256×256 in `new`), chunk size (default 10) and the failure-suppression
flag (default `true`). -/
structure SymbolArtDrawer where
  resource : Resource
  canvasSize : Nat × Nat
  chunkSize : Nat
  suppressFailure : Bool

/-- Models `SymbolArtDrawer::new` / `default` modulo the embedded resource
cache, whose loading is out of scope: canvas 256×256, chunk size 10,
failures suppressed. -/
def SymbolArtDrawer.mk' (res : Resource) : SymbolArtDrawer :=
  { resource := res, canvasSize := (256, 256), chunkSize := 10, suppressFailure := true }

/-- Models `SymbolArtDrawer::with_raise_error`. -/
def with_raise_error (d : SymbolArtDrawer) (raiseError : Bool) : SymbolArtDrawer :=
  { d with suppressFailure := !raiseError }

/-- Models `SymbolArtDrawer::with_chunk_size`. -/
def with_chunk_size (d : SymbolArtDrawer) (n : Nat) : SymbolArtDrawer :=
  { d with chunkSize := n }

/-- Models `SymbolArtDrawer::calc_canvas_size`: the working canvas size at a
given scale (`(canvas_size as f32 * scale) as u32`, componentwise). -/
def calc_canvas_size (d : SymbolArtDrawer) (scale : ℚ) : Nat × Nat :=
  (natOfRat ((d.canvasSize.1 : ℚ) * scale), natOfRat ((d.canvasSize.2 : ℚ) * scale))

/-- Models `SymbolArtDrawer::calc_view_size`: the scaled logical size
(`(width as f32 * scale) as u32`, componentwise). -/
def calc_view_size (sa : SymbolArt) (scale : ℚ) : Nat × Nat :=
  (natOfRat ((sa.width : ℚ) * scale), natOfRat ((sa.height : ℚ) * scale))

/-- Models `SymbolArtDrawer::get_projection`: build the control-point
correspondence from the symbol bitmap square to the layer's scaled corners
and solve it, reporting `ProjectionError` on a degenerate correspondence. -/
def get_projection (d : SymbolArtDrawer) (layer : Layer) (scale : ℚ) :
    Except SARError Projection :=
  let s : ℚ := (d.resource.symbolPixels : ℚ)
  let f1 : ℚ × ℚ := (0, 0)
  let f2 : ℚ × ℚ := (s, 0)
  let f3 : ℚ × ℚ := (s, s)
  let f4 : ℚ × ℚ := (0, s)
  let t1 : ℚ × ℚ := (layer.topLeft.x * scale, layer.topLeft.y * scale)
  let t2 : ℚ × ℚ := (layer.topRight.x * scale, layer.topRight.y * scale)
  let t3 : ℚ × ℚ := (layer.bottomRight.x * scale, layer.bottomRight.y * scale)
  let t4 : ℚ × ℚ := (layer.bottomLeft.x * scale, layer.bottomLeft.y * scale)
  match from_control_points f1 f2 f3 f4 t1 t2 t3 t4 with
  | some p => Except.ok p
  | none => Except.error (SARError.projectionError [f1, f2, f3, f4] [t1, t2, t3, t4])

/-- The color mode passed to `render_symbol` (`enum RenderColor` in
`draw.rs`): blend a fixed layer color, or blend the warped pixels as-is. -/
inductive RenderColor where
  | color (c : Color)
  | none

/-- The render mode chosen for a cache entry
(`if let resource::Image::Color(_) = image { None } else { Color(layer.color()) }`). -/
def rcFor (image : ResImage) (c : Color) : RenderColor :=
  match image with
  | ResImage.color _ => RenderColor.none
  | ResImage.symbol _ => RenderColor.color c

/-- The blend source selected by a render-color mode: the fixed layer color,
or the warped mask pixel itself. -/
def renderSrc (rc : RenderColor) (maskPix : Color) : Color :=
  match rc with
  | RenderColor.color c => c
  | RenderColor.none => maskPix

/-- Models `SymbolArtDrawer::render_symbol`: for every pixel of `base`, read
the same coordinate of `symbol` and, where the symbol pixel has nonzero
alpha, blend either the given color or the symbol pixel itself over the base
pixel.  `symbol.get_pixel(x, y)` panics when `(x, y)` is outside `symbol`;
the panic is modelled as `none`. -/
def render_symbol (base symbol : Img) (rc : RenderColor) : Option Img :=
  if ∀ x, x < base.w → ∀ y, y < base.h → x < symbol.w ∧ y < symbol.h then
    some (Img.mk base.w base.h (fun x y =>
      if x < base.w ∧ y < base.h then
        let sp := symbol.pix x y
        if 0 < sp.a then
          match rc with
          | RenderColor.color c => blend (base.pix x y) c
          | RenderColor.none => blend (base.pix x y) sp
        else base.pix x y
      else base.pix x y))
  else none

/-- Outcome of a piece of the pipeline: a value, a reported `SARError`, or a
Rust panic. -/
inductive POut (α : Type) where
  | ok (a : α)
  | err (e : SARError)
  | panik

/-- Models one iteration of the per-layer loop inside `draw_with_scale`'s
chunk closure: skip hidden layers; look the symbol up in the cache; compute
the projection; warp; composite onto the chunk canvas.  With
`suppress_failure` a failing layer is skipped, otherwise its error is the
chunk's result. -/
def processLayer (d : SymbolArtDrawer) (scale : ℚ) (cs : Nat × Nat)
    (canvas : Img) (layer : Layer) : POut Img :=
  if layer.hidden then POut.ok canvas
  else
    match d.resource.getImage layer.symbolId with
    | Option.none =>
      if d.suppressFailure then POut.ok canvas
      else POut.err (SARError.symbolNotFound layer.symbolId)
    | Option.some image =>
      match get_projection d layer scale with
      | Except.error e =>
        if d.suppressFailure then POut.ok canvas else POut.err e
      | Except.ok projection =>
        match render_symbol canvas
            (warp_into image.inner projection transparentC (Img.new cs.1 cs.2))
            (rcFor image layer.color) with
        | Option.some c => POut.ok c
        | Option.none => POut.panik

/-- The per-layer loop of a chunk, over an explicit layer sequence. -/
def processChunkGo (d : SymbolArtDrawer) (scale : ℚ) (cs : Nat × Nat) :
    Img → List Layer → POut Img
  | c, [] => POut.ok c
  | c, l :: ls =>
    match processLayer d scale cs c l with
    | POut.ok c' => processChunkGo d scale cs c' ls
    | POut.err e => POut.err e
    | POut.panik => POut.panik

/-- Models one chunk closure of `draw_with_scale`: a fresh transparent
sub-canvas, then the layer loop over `chunk.iter().rev()`. -/
def processChunk (d : SymbolArtDrawer) (scale : ℚ) (cs : Nat × Nat)
    (chunk : List Layer) : POut Img :=
  processChunkGo d scale cs (Img.new cs.1 cs.2) chunk.reverse

/-- Contiguous chunks of size `n` (fuel-driven; the fuel is the list length,
which always suffices for `n ≥ 1`). -/
def chunksOfGo {α : Type} : Nat → Nat → List α → List (List α)
  | _, _, [] => []
  | 0, _, l => [l]
  | fuel + 1, n, a :: as => (a :: as).take n :: chunksOfGo fuel n ((a :: as).drop n)

/-- Models `slice::par_chunks(n)`: the list of contiguous chunks of size `n`
(the last chunk may be shorter).  `par_chunks` panics for `n = 0`; that case
is handled in `draw_with_scale`. -/
def chunksOf {α : Type} (n : Nat) (l : List α) : List (List α) :=
  chunksOfGo l.length n l

/-- Index a list with consecutive indices starting at `i`
(`.enumerate()` with an initial offset). -/
def enumIdx {α : Type} : Nat → List α → List (Nat × α)
  | _, [] => []
  | i, a :: as => (i, a) :: enumIdx (i + 1) as

/-- The chunk outcomes of `draw_with_scale`, in processing order: the chunk
sequence is reversed (`.rev()`), enumerated (`.enumerate()`), and every chunk
is rendered to its own sub-canvas. -/
def drawResults (d : SymbolArtDrawer) (sa : SymbolArt) (scale : ℚ) :
    List (Nat × POut Img) :=
  (enumIdx 0 (chunksOf d.chunkSize sa.layers).reverse).map
    (fun p => (p.1, processChunk d scale (calc_canvas_size d scale) p.2))

/-- The first reported error among the chunk outcomes, in processing order
(the sequential semantics of the mpsc channel first-receive). -/
def firstError : List (Nat × POut Img) → Option SARError
  | [] => Option.none
  | (_, POut.err e) :: _ => Option.some e
  | _ :: rest => firstError rest

/-- Whether some chunk panicked (a panic in a worker propagates). -/
def hasPanik : List (Nat × POut Img) → Bool
  | [] => false
  | (_, POut.panik) :: _ => true
  | _ :: rest => hasPanik rest

/-- The successful `(index, sub_canvas)` pairs, in list order — the overlays
vector collected by `filter_map`. -/
def collectOk : List (Nat × POut Img) → List (Nat × Img)
  | [] => []
  | (i, POut.ok c) :: rest => (i, c) :: collectOk rest
  | _ :: rest => collectOk rest

/-- Comparison of overlay entries by chunk index (`sort_by_key(|(i, _)| *i)`). -/
def keyLE (p q : Nat × Img) : Prop := p.1 ≤ q.1

instance : DecidableRel keyLE := fun p q => Nat.decLe p.1 q.1

instance : IsTotal (Nat × Img) keyLE := ⟨fun p q => Nat.le_total p.1 q.1⟩

instance : IsTrans (Nat × Img) keyLE := ⟨fun _ _ _ h₁ h₂ => Nat.le_trans h₁ h₂⟩

/-- Strict index order on overlay entries. -/
def keyLT (p q : Nat × Img) : Prop := p.1 < q.1

instance : IsAntisymm (Nat × Img) keyLT :=
  ⟨fun _ _ h₁ h₂ => absurd h₁ (Nat.lt_asymm h₂)⟩

/-- The base working canvas (`RgbaImage::from_pixel(w, h, Rgba([0;4]))`). -/
def baseCanvas (d : SymbolArtDrawer) (scale : ℚ) : Img :=
  Img.new (calc_canvas_size d scale).1 (calc_canvas_size d scale).2

/-- The overlays sorted by chunk index, in merge order. -/
def mergeList (results : List (Nat × POut Img)) : List (Nat × Img) :=
  List.insertionSort keyLE (collectOk results)

/-- Models the merge loop of `draw_with_scale`: sort the collected overlays
by index and fold them over the base canvas with `imageops::overlay`. -/
def mergeResults (d : SymbolArtDrawer) (scale : ℚ)
    (results : List (Nat × POut Img)) : Img :=
  (mergeList results).foldl (fun c p => overlay c p.2) (baseCanvas d scale)

/-- The merged working canvas of a render, before cropping. -/
def mergedCanvas (d : SymbolArtDrawer) (sa : SymbolArt) (scale : ℚ) : Img :=
  mergeResults d scale (drawResults d sa scale)

/-- The horizontal offset of the centered viewport,
`canvas_size.0 / 2 - view_size.0 / 2` (as a truncated `Nat` subtraction; the
`u32` underflow case is detected separately in `crop`). -/
def cropX (d : SymbolArtDrawer) (sa : SymbolArt) (scale : ℚ) : Nat :=
  (calc_canvas_size d scale).1 / 2 - (calc_view_size sa scale).1 / 2

/-- The vertical offset of the centered viewport. -/
def cropY (d : SymbolArtDrawer) (sa : SymbolArt) (scale : ℚ) : Nat :=
  (calc_canvas_size d scale).2 / 2 - (calc_view_size sa scale).2 / 2

/-- The cropped output bitmap: the centered view-sized sub-rectangle of the
working canvas (`sub_image(..).to_image()` in the in-bounds case). -/
def cropImg (d : SymbolArtDrawer) (sa : SymbolArt) (scale : ℚ) (canvas : Img) : Img :=
  Img.mk (calc_view_size sa scale).1 (calc_view_size sa scale).2 (fun x y =>
    if x < (calc_view_size sa scale).1 ∧ y < (calc_view_size sa scale).2 then
      canvas.pix (cropX d sa scale + x) (cropY d sa scale + y)
    else transparentC)

/-- Models the final viewport extraction of `draw_with_scale`:
`canvas.sub_image(cw/2 - vw/2, ch/2 - vh/2, vw, vh).to_image()`.  The `u32`
subtractions overflow-panic when the halved view size exceeds the halved
canvas size, and the sub-image pixel reads panic when the rectangle leaves
the canvas; both panics are modelled as `POut.panik`. -/
def crop (d : SymbolArtDrawer) (sa : SymbolArt) (scale : ℚ) (canvas : Img) :
    POut Img :=
  if (calc_canvas_size d scale).1 / 2 < (calc_view_size sa scale).1 / 2 ∨
      (calc_canvas_size d scale).2 / 2 < (calc_view_size sa scale).2 / 2 then
    POut.panik
  else if (calc_canvas_size d scale).1 < cropX d sa scale + (calc_view_size sa scale).1 ∨
      (calc_canvas_size d scale).2 < cropY d sa scale + (calc_view_size sa scale).2 then
    POut.panik
  else POut.ok (cropImg d sa scale canvas)

/-- The tail of `draw_with_scale` after the parallel loop: fail on the first
received error, otherwise merge the sub-canvases and crop. -/
def finishDraw (d : SymbolArtDrawer) (sa : SymbolArt) (scale : ℚ)
    (results : List (Nat × POut Img)) : POut Img :=
  match firstError results with
  | Option.some e => POut.err e
  | Option.none =>
    if hasPanik results then POut.panik
    else crop d sa scale (mergeResults d scale results)

/-- Models `SymbolArtDrawer::draw_with_scale`. -/
def draw_with_scale (d : SymbolArtDrawer) (sa : SymbolArt) (scale : ℚ) : POut Img :=
  if d.chunkSize = 0 then POut.panik
  else finishDraw d sa scale (drawResults d sa scale)

/-- Models `SymbolArtDrawer::draw`: `draw_with_scale` at scale `1.0`. -/
def draw (d : SymbolArtDrawer) (sa : SymbolArt) : POut Img :=
  draw_with_scale d sa 1

/-- Whether a pipeline outcome is a successful image. -/
def POut.isOk {α : Type} : POut α → Bool
  | POut.ok _ => true
  | _ => false

/-- The pixel of a successful render at a coordinate (transparent for the
error and panic outcomes, which carry no image). -/
def outPix (p : POut Img) (x y : Nat) : Color :=
  match p with
  | POut.ok i => i.pix x y
  | _ => transparentC

/-- The width of a successful render (zero otherwise). -/
def outW (p : POut Img) : Nat :=
  match p with
  | POut.ok i => i.w
  | _ => 0

/-- The height of a successful render (zero otherwise). -/
def outH (p : POut Img) : Nat :=
  match p with
  | POut.ok i => i.h
  | _ => 0

/-- The rendered bitmap of an outcome, if any. -/
def bitmapOf (p : POut Img) : Option Img :=
  match p with
  | POut.ok i => some i
  | _ => none

/-- Pixel-level agreement of two outcomes: the same kind of outcome, with
extensionally equal images in the success case. -/
def pixEq : POut Img → POut Img → Prop
  | POut.ok a, POut.ok b => sameImage a b
  | POut.err e, POut.err e' => e = e'
  | POut.panik, POut.panik => True
  | _, _ => False

/-- The blend source a layer contributes at a working-canvas pixel:
transparent for hidden, unresolvable or projection-degenerate layers and
wherever the warped mask is transparent; otherwise the layer color (for a
colorable entry) or the warped pixel itself (for a fixed-color entry). -/
def srcAt (d : SymbolArtDrawer) (scale : ℚ) (cs : Nat × Nat) (layer : Layer)
    (x y : Nat) : Color :=
  if layer.hidden then transparentC
  else
    match d.resource.getImage layer.symbolId with
    | Option.none => transparentC
    | Option.some image =>
      match get_projection d layer scale with
      | Except.error _ => transparentC
      | Except.ok projection =>
        let sp := (warp_into image.inner projection transparentC (Img.new cs.1 cs.2)).pix x y
        if 0 < sp.a then renderSrc (rcFor image layer.color) sp
        else transparentC

/-- Last-writer-wins fold: the net effect of a chain of blends in which
every source is fully transparent or fully opaque. -/
def opFold (init : Color) (srcs : List Color) : Color :=
  srcs.foldl (fun c s => if s.a = 0 then c else s) init

/-- The image of a successful outcome, or a default. -/
def POut.getD (p : POut Img) (dflt : Img) : Img :=
  match p with
  | POut.ok i => i
  | _ => dflt

/-- Whether an outcome is a reported error. -/
def isErrP {α : Type} : POut α → Bool
  | POut.err _ => true
  | _ => false

/-- Whether an outcome is a panic. -/
def isPanikP {α : Type} : POut α → Bool
  | POut.panik => true
  | _ => false

/-- The sub-canvas a chunk renders to, defaulting to a blank canvas on the
failure outcomes (which the lemmas using this definition exclude). -/
def chunkCanvas (d : SymbolArtDrawer) (scale : ℚ) (cs : Nat × Nat)
    (chunk : List Layer) : Img :=
  (processChunk d scale cs chunk).getD (Img.new cs.1 cs.2)

/-- A layer that neither fails nor is skipped for cache or projection
reasons: visible layers resolve in the cache and have a solvable
projection. -/
def layerOk (d : SymbolArtDrawer) (scale : ℚ) (l : Layer) : Prop :=
  l.hidden = false →
    (d.resource.getImage l.symbolId).isSome = true ∧
      (get_projection d l scale matches Except.ok _)

instance layerOkDecidable (d : SymbolArtDrawer) (scale : ℚ) (l : Layer) :
    Decidable (layerOk d scale l) :=
  decidable_of_iff
    (l.hidden = false →
      (d.resource.getImage l.symbolId).isSome = true ∧
        (get_projection d l scale matches Except.ok _))
    Iff.rfl

/-- The per-pixel blend-source sequence of a layer list, bottom-most first
(storage order reversed), at a fixed canvas coordinate. -/
def srcSeq (d : SymbolArtDrawer) (scale : ℚ) (cs : Nat × Nat)
    (layers : List Layer) (x y : Nat) : List Color :=
  layers.reverse.map (fun l => srcAt d scale cs l x y)

/-! Concrete fixtures used by counterexamples and witnesses: a 1×1 colorable
mask under symbol id 1, rendered on a 1×1 working canvas, so that a layer
whose corners are the unit square paints exactly the pixel `(0, 0)`. -/

/-- A 1×1 fully opaque mask bitmap. -/
def maskImg1 : Img := Img.mk 1 1 (fun _ _ => ⟨255, 255, 255, 255⟩)

/-- A cache holding the 1×1 colorable mask under symbol id 1. -/
def res1 : Resource :=
  ⟨1, fun i => if i = 1 then some (ResImage.symbol maskImg1) else none⟩

/-- A drawer over `res1` with a 1×1 working canvas and default options. -/
def drawer1 : SymbolArtDrawer := ⟨res1, (1, 1), 10, true⟩

/-- A visible layer mapping the symbol square onto the unit square, with the
given color. -/
def unitLayer (c : Color) : Layer :=
  ⟨1, ⟨0, 0⟩, ⟨1, 0⟩, ⟨1, 1⟩, ⟨0, 1⟩, c, false⟩

/-- One step of the per-chunk layer loop as a fold function: process the
next layer unless the chunk already failed. -/
def layerStep (d : SymbolArtDrawer) (scale : ℚ) (cs : Nat × Nat)
    (acc : POut Img) (l : Layer) : POut Img :=
  match acc with
  | POut.ok c => processLayer d scale cs c l
  | acc => acc

/-- A canonical hidden layer (all other fields degenerate). -/
def hiddenDefault : Layer :=
  ⟨0, ⟨0, 0⟩, ⟨0, 0⟩, ⟨0, 0⟩, ⟨0, 0⟩, transparentC, true⟩

/-- Replace every hidden layer by the canonical hidden layer; visible layers
are untouched.  Renders identically because hidden layers are skipped before
any of their other fields are read. -/
def scrub (l : Layer) : Layer :=
  if l.hidden then hiddenDefault else l

/-- Fixture: an opaque red full-canvas layer (stored first, so painted on
top). -/
def layerA : Layer := unitLayer ⟨255, 0, 0, 255⟩

/-- Fixture: an opaque blue full-canvas layer (stored second). -/
def layerB : Layer := unitLayer ⟨0, 0, 255, 255⟩

/-- Fixture: a two-layer composition with fully overlapping opaque layers,
`layerA` preceding `layerB` in storage order. -/
def saOrder : SymbolArt := ⟨1, 1, [layerA, layerB]⟩

/-- Fixture: eleven layers on one pixel — an opaque white base (stored
last), a semi-transparent white above it, eight inert layers, and a
semi-transparent black on top.  The semi-transparent stack makes the
per-chunk quantization of `blend` observable. -/
def saChunkCex : SymbolArt :=
  ⟨1, 1,
    [unitLayer ⟨0, 0, 0, 128⟩, unitLayer ⟨0, 0, 0, 0⟩, unitLayer ⟨0, 0, 0, 0⟩,
     unitLayer ⟨0, 0, 0, 0⟩, unitLayer ⟨0, 0, 0, 0⟩, unitLayer ⟨0, 0, 0, 0⟩,
     unitLayer ⟨0, 0, 0, 0⟩, unitLayer ⟨0, 0, 0, 0⟩, unitLayer ⟨0, 0, 0, 0⟩,
     unitLayer ⟨255, 255, 255, 128⟩, unitLayer ⟨255, 255, 255, 255⟩]⟩

/-- Fixture: a drawer whose working canvas is only 4×4. -/
def drawer44 : SymbolArtDrawer := ⟨res1, (4, 4), 10, true⟩

/-- Fixture: an empty composition of logical size 8×8 (larger than the 4×4
working canvas of `drawer44`). -/
def saBig : SymbolArt := ⟨8, 8, []⟩

/-- Fixture: a visible layer referencing the absent symbol id 7. -/
def badLayer7 : Layer := ⟨7, ⟨0, 0⟩, ⟨1, 0⟩, ⟨1, 1⟩, ⟨0, 1⟩, ⟨9, 9, 9, 255⟩, false⟩

/-- Fixture: a hidden layer with an unknown symbol id and degenerate
corners. -/
def hiddenBad : Layer := ⟨99, ⟨0, 0⟩, ⟨0, 0⟩, ⟨0, 0⟩, ⟨0, 0⟩, ⟨1, 2, 3, 4⟩, true⟩

/-- The identity perspective transform, as computed by `get_projection` for
a layer whose corners are the unit square at the unit symbol size. -/
def idProjection : Projection :=
  ⟨⟨1, 0, 0, 0, 1, 0, 0, 0, 1⟩, ⟨1, 0, 0, 0, 1, 0, 0, 0, 1⟩⟩

/-! Basic facts about `blend`. -/

theorem blend_src_transparent (bg fg : Color) (h : fg.a = 0) : blend bg fg = bg := by
  simp [blend, h]

theorem blend_src_fullAlpha (bg fg : Color) (h : fg.a = 255) : blend bg fg = fg := by
  simp [blend, h]

/-! Facts about the last-writer-wins fold `opFold`. -/

theorem opFold_nil (c : Color) : opFold c [] = c := rfl

theorem opFold_cons (c s : Color) (ss : List Color) :
    opFold c (s :: ss) = opFold (if s.a = 0 then c else s) ss := rfl

theorem opFold_append (c : Color) (l₁ l₂ : List Color) :
    opFold c (l₁ ++ l₂) = opFold (opFold c l₁) l₂ := by
  simp [opFold, List.foldl_append]

theorem foldl_blend_eq_opFold (srcs : List Color)
    (hop : ∀ s ∈ srcs, s.a = 0 ∨ s.a = 255) (c : Color) :
    List.foldl blend c srcs = opFold c srcs := by
  induction srcs generalizing c with
  | nil => rfl
  | cons s ss ih =>
    have hs := hop s (List.mem_cons_self s ss)
    have hss : ∀ s' ∈ ss, s'.a = 0 ∨ s'.a = 255 :=
      fun s' h' => hop s' (List.mem_cons_of_mem _ h')
    have hstep : blend c s = if s.a = 0 then c else s := by
      cases hs with
      | inl h0 => rw [blend_src_transparent c s h0, if_pos h0]
      | inr h255 =>
        rw [blend_src_fullAlpha c s h255, if_neg (by rw [h255]; decide)]
    calc List.foldl blend c (s :: ss) = List.foldl blend (blend c s) ss := rfl
      _ = opFold (blend c s) ss := ih hss (blend c s)
      _ = opFold (if s.a = 0 then c else s) ss := by rw [hstep]
      _ = opFold c (s :: ss) := rfl

theorem opFold_alpha (srcs : List Color)
    (hop : ∀ s ∈ srcs, s.a = 0 ∨ s.a = 255) (c : Color)
    (hc : c.a = 0 ∨ c.a = 255) :
    (opFold c srcs).a = 0 ∨ (opFold c srcs).a = 255 := by
  induction srcs generalizing c with
  | nil => exact hc
  | cons s ss ih =>
    have hs := hop s (List.mem_cons_self s ss)
    have hss : ∀ s' ∈ ss, s'.a = 0 ∨ s'.a = 255 :=
      fun s' h' => hop s' (List.mem_cons_of_mem _ h')
    rw [opFold_cons]
    refine ih hss _ ?_
    by_cases h0 : s.a = 0
    · rw [if_pos h0]; exact hc
    · rw [if_neg h0]; exact hs

theorem opFold_alpha_full (srcs : List Color)
    (hop : ∀ s ∈ srcs, s.a = 0 ∨ s.a = 255) (c : Color) (hc : c.a = 255) :
    (opFold c srcs).a = 255 := by
  induction srcs generalizing c with
  | nil => exact hc
  | cons s ss ih =>
    have hs := hop s (List.mem_cons_self s ss)
    have hss : ∀ s' ∈ ss, s'.a = 0 ∨ s'.a = 255 :=
      fun s' h' => hop s' (List.mem_cons_of_mem _ h')
    rw [opFold_cons]
    refine ih hss _ ?_
    by_cases h0 : s.a = 0
    · rw [if_pos h0]; exact hc
    · rw [if_neg h0]
      cases hs with
      | inl h => exact absurd h h0
      | inr h => exact h

theorem opFold_init (srcs : List Color)
    (hop : ∀ s ∈ srcs, s.a = 0 ∨ s.a = 255) (c : Color) :
    opFold c srcs =
      if (opFold transparentC srcs).a = 0 then c else opFold transparentC srcs := by
  induction srcs generalizing c with
  | nil => simp [opFold_nil, transparentC]
  | cons s ss ih =>
    have hs := hop s (List.mem_cons_self s ss)
    have hss : ∀ s' ∈ ss, s'.a = 0 ∨ s'.a = 255 :=
      fun s' h' => hop s' (List.mem_cons_of_mem _ h')
    by_cases h0 : s.a = 0
    · rw [opFold_cons, if_pos h0, opFold_cons transparentC, if_pos h0]
      exact ih hss c
    · have h255 : s.a = 255 := by
        cases hs with
        | inl h => exact absurd h h0
        | inr h => exact h
      have hres : (opFold s ss).a = 255 := opFold_alpha_full ss hss s h255
      rw [opFold_cons, if_neg h0, opFold_cons transparentC, if_neg h0,
        if_neg (by rw [hres]; decide)]

theorem blend_opFold (srcs : List Color)
    (hop : ∀ s ∈ srcs, s.a = 0 ∨ s.a = 255) (c : Color) :
    blend c (opFold transparentC srcs) = opFold c srcs := by
  rcases opFold_alpha srcs hop transparentC (Or.inl rfl) with h0 | h255
  · rw [blend_src_transparent _ _ h0, opFold_init srcs hop c, if_pos h0]
  · rw [blend_src_fullAlpha _ _ h255, opFold_init srcs hop c,
      if_neg (by rw [h255]; decide)]

theorem opFold_last (c s : Color) (srcs : List Color) (h : s.a = 255) :
    opFold c (srcs ++ [s]) = s := by
  rw [opFold_append, opFold_cons, if_neg (by omega), opFold_nil]

/-! Dimension and pixel facts about the image operations. -/

theorem overlay_w (bottom top : Img) : (overlay bottom top).w = bottom.w := rfl

theorem overlay_h (bottom top : Img) : (overlay bottom top).h = bottom.h := rfl

theorem overlay_pix (bottom top : Img) (x y : Nat)
    (hx : x < bottom.w) (hx' : x < top.w) (hy : y < bottom.h) (hy' : y < top.h) :
    (overlay bottom top).pix x y = blend (bottom.pix x y) (top.pix x y) := by
  simp only [overlay]
  rw [if_pos ⟨lt_min hx hx', lt_min hy hy'⟩]

theorem overlay_pix_transparent_top (c : Img) (w h x y : Nat) :
    (overlay c (Img.new w h)).pix x y = c.pix x y := by
  simp only [overlay, Img.new]
  split
  · exact blend_src_transparent _ _ rfl
  · rfl

theorem warp_into_w (src : Img) (P : Projection) (dflt : Color) (out : Img) :
    (warp_into src P dflt out).w = out.w := rfl

theorem warp_into_h (src : Img) (P : Projection) (dflt : Color) (out : Img) :
    (warp_into src P dflt out).h = out.h := rfl

theorem render_symbol_isSome (base symbol : Img) (rc : RenderColor)
    (hw : symbol.w = base.w) (hh : symbol.h = base.h) :
    (render_symbol base symbol rc).isSome = true := by
  unfold render_symbol
  rw [if_pos]
  · rfl
  · intro x hx y hy
    exact ⟨hw ▸ hx, hh ▸ hy⟩

theorem render_symbol_dims (base symbol : Img) (rc : RenderColor) (c' : Img)
    (h : render_symbol base symbol rc = some c') :
    c'.w = base.w ∧ c'.h = base.h := by
  unfold render_symbol at h
  split at h
  · cases h
    exact ⟨rfl, rfl⟩
  · cases h

theorem render_symbol_pix (base symbol : Img) (rc : RenderColor) (c' : Img)
    (h : render_symbol base symbol rc = some c') (x y : Nat)
    (hx : x < base.w) (hy : y < base.h) :
    c'.pix x y =
      if 0 < (symbol.pix x y).a then
        blend (base.pix x y) (renderSrc rc (symbol.pix x y))
      else base.pix x y := by
  unfold render_symbol at h
  split at h
  · cases h
    show (if x < base.w ∧ y < base.h then _ else _) = _
    rw [if_pos (And.intro hx hy)]
    cases rc <;> rfl
  · cases h

/-! Unfolding facts about the per-layer contribution `srcAt`. -/

theorem srcAt_hidden (d : SymbolArtDrawer) (scale : ℚ) (cs : Nat × Nat)
    (l : Layer) (x y : Nat) (h : l.hidden = true) :
    srcAt d scale cs l x y = transparentC := by
  unfold srcAt
  rw [if_pos h]

theorem srcAt_noImage (d : SymbolArtDrawer) (scale : ℚ) (cs : Nat × Nat)
    (l : Layer) (x y : Nat) (hHid : ¬l.hidden = true)
    (hImg : d.resource.getImage l.symbolId = Option.none) :
    srcAt d scale cs l x y = transparentC := by
  unfold srcAt
  rw [if_neg hHid, hImg]

theorem srcAt_noProj (d : SymbolArtDrawer) (scale : ℚ) (cs : Nat × Nat)
    (l : Layer) (x y : Nat) (hHid : ¬l.hidden = true) (image : ResImage)
    (hImg : d.resource.getImage l.symbolId = Option.some image) (e : SARError)
    (hProj : get_projection d l scale = Except.error e) :
    srcAt d scale cs l x y = transparentC := by
  unfold srcAt
  rw [if_neg hHid, hImg, hProj]

theorem srcAt_visible (d : SymbolArtDrawer) (scale : ℚ) (cs : Nat × Nat)
    (l : Layer) (x y : Nat) (hHid : ¬l.hidden = true) (image : ResImage)
    (hImg : d.resource.getImage l.symbolId = Option.some image)
    (projection : Projection)
    (hProj : get_projection d l scale = Except.ok projection) :
    srcAt d scale cs l x y =
      if 0 < ((warp_into image.inner projection transparentC (Img.new cs.1 cs.2)).pix x y).a then
        renderSrc (rcFor image l.color)
          ((warp_into image.inner projection transparentC (Img.new cs.1 cs.2)).pix x y)
      else transparentC := by
  unfold srcAt
  rw [if_neg hHid, hImg, hProj]

/-! Facts about `processLayer`. -/

theorem processLayer_hidden (d : SymbolArtDrawer) (scale : ℚ) (cs : Nat × Nat)
    (canvas : Img) (l : Layer) (h : l.hidden = true) :
    processLayer d scale cs canvas l = POut.ok canvas := by
  simp [processLayer, h]

theorem processLayer_chunk_size_irrel (d : SymbolArtDrawer) (k : Nat) (scale : ℚ)
    (cs : Nat × Nat) (canvas : Img) (l : Layer) :
    processLayer (with_chunk_size d k) scale cs canvas l =
      processLayer d scale cs canvas l := rfl

theorem processLayer_ok_elim (d : SymbolArtDrawer) (scale : ℚ) (cs : Nat × Nat)
    (canvas : Img) (l : Layer) (c' : Img)
    (hw : canvas.w = cs.1) (hh : canvas.h = cs.2)
    (h : processLayer d scale cs canvas l = POut.ok c') :
    c'.w = cs.1 ∧ c'.h = cs.2 ∧
      ∀ x y, x < cs.1 → y < cs.2 →
        c'.pix x y = blend (canvas.pix x y) (srcAt d scale cs l x y) := by
  unfold processLayer at h
  split at h
  · -- hidden layer: nothing painted
    rename_i hHid
    cases h
    refine ⟨hw, hh, fun x y hx hy => ?_⟩
    rw [srcAt_hidden d scale cs l x y hHid, blend_src_transparent _ _ rfl]
  · rename_i hHid
    split at h
    · -- symbol not found
      rename_i hImg
      split at h
      · rename_i hSup
        cases h
        refine ⟨hw, hh, fun x y hx hy => ?_⟩
        rw [srcAt_noImage d scale cs l x y hHid hImg, blend_src_transparent _ _ rfl]
      · cases h
    · rename_i image hImg
      split at h
      · -- projection failed
        rename_i e hProj
        split at h
        · cases h
          refine ⟨hw, hh, fun x y hx hy => ?_⟩
          rw [srcAt_noProj d scale cs l x y hHid image hImg e hProj,
            blend_src_transparent _ _ rfl]
        · cases h
      · rename_i projection hProj
        split at h
        · -- painted through render_symbol
          rename_i c₀ hRender
          cases h
          obtain ⟨hcw, hch⟩ := render_symbol_dims _ _ _ _ hRender
          refine ⟨hcw.trans hw, hch.trans hh, fun x y hx hy => ?_⟩
          have hpix := render_symbol_pix _ _ _ _ hRender x y (hw ▸ hx) (hh ▸ hy)
          rw [hpix, srcAt_visible d scale cs l x y hHid image hImg projection hProj]
          by_cases hmask : 0 <
              ((warp_into image.inner projection transparentC (Img.new cs.1 cs.2)).pix x y).a
          · rw [if_pos hmask, if_pos hmask]
          · rw [if_neg hmask, if_neg hmask, blend_src_transparent _ _ rfl]
        · cases h

theorem processLayer_not_panik (d : SymbolArtDrawer) (scale : ℚ) (cs : Nat × Nat)
    (canvas : Img) (l : Layer) (hw : canvas.w = cs.1) (hh : canvas.h = cs.2) :
    processLayer d scale cs canvas l ≠ POut.panik := by
  unfold processLayer
  split
  · intro h; cases h
  · split
    · split <;> (intro h; cases h)
    · rename_i image hImg
      split
      · split <;> (intro h; cases h)
      · rename_i projection hProj
        have hsome : (render_symbol canvas
            (warp_into image.inner projection transparentC (Img.new cs.1 cs.2))
            (rcFor image l.color)).isSome = true := by
          refine render_symbol_isSome _ _ _ ?_ ?_
          · rw [warp_into_w]; exact hw.symm
          · rw [warp_into_h]; exact hh.symm
        split
        · intro h; cases h
        · rename_i hNone
          rw [hNone] at hsome
          cases hsome

theorem processLayer_isOk (d : SymbolArtDrawer) (scale : ℚ) (cs : Nat × Nat)
    (canvas : Img) (l : Layer) (hw : canvas.w = cs.1) (hh : canvas.h = cs.2)
    (hok : d.suppressFailure = true ∨ layerOk d scale l) :
    (processLayer d scale cs canvas l).isOk = true := by
  unfold processLayer
  split
  · rfl
  · rename_i hHid
    have hHid' : l.hidden = false := by
      cases hl : l.hidden
      · rfl
      · exact absurd hl hHid
    split
    · rename_i hImg
      cases hok with
      | inl hSup => rw [if_pos hSup]; rfl
      | inr hLok =>
        have := (hLok hHid').1
        rw [hImg] at this
        cases this
    · rename_i image hImg
      split
      · rename_i e hProj
        cases hok with
        | inl hSup => rw [if_pos hSup]; rfl
        | inr hLok =>
          have := (hLok hHid').2
          rw [hProj] at this
          cases this
      · rename_i projection hProj
        have hsome : (render_symbol canvas
            (warp_into image.inner projection transparentC (Img.new cs.1 cs.2))
            (rcFor image l.color)).isSome = true := by
          refine render_symbol_isSome _ _ _ ?_ ?_
          · rw [warp_into_w]; exact hw.symm
          · rw [warp_into_h]; exact hh.symm
        split
        · rfl
        · rename_i hNone
          rw [hNone] at hsome
          cases hsome

/-! Facts about the chunk loop. -/

theorem processChunkGo_ok_elim (d : SymbolArtDrawer) (scale : ℚ) (cs : Nat × Nat) :
    ∀ (ls : List Layer) (canvas c' : Img),
      canvas.w = cs.1 → canvas.h = cs.2 →
      processChunkGo d scale cs canvas ls = POut.ok c' →
      c'.w = cs.1 ∧ c'.h = cs.2 ∧
        ∀ x y, x < cs.1 → y < cs.2 →
          c'.pix x y =
            List.foldl (fun col l => blend col (srcAt d scale cs l x y))
              (canvas.pix x y) ls := by
  intro ls
  induction ls with
  | nil =>
    intro canvas c' hw hh h
    cases h
    exact ⟨hw, hh, fun x y hx hy => rfl⟩
  | cons l ls ih =>
    intro canvas c' hw hh h
    unfold processChunkGo at h
    split at h
    · rename_i c₀ hStep
      obtain ⟨h0w, h0h, h0pix⟩ := processLayer_ok_elim d scale cs canvas l c₀ hw hh hStep
      obtain ⟨hcw, hch, hcpix⟩ := ih c₀ c' h0w h0h h
      refine ⟨hcw, hch, fun x y hx hy => ?_⟩
      rw [hcpix x y hx hy, List.foldl_cons, h0pix x y hx hy]
    · cases h
    · cases h

theorem processChunkGo_not_panik (d : SymbolArtDrawer) (scale : ℚ) (cs : Nat × Nat) :
    ∀ (ls : List Layer) (canvas : Img),
      canvas.w = cs.1 → canvas.h = cs.2 →
      processChunkGo d scale cs canvas ls ≠ POut.panik := by
  intro ls
  induction ls with
  | nil =>
    intro canvas _ _ h
    cases h
  | cons l ls ih =>
    intro canvas hw hh
    unfold processChunkGo
    split
    · rename_i c₀ hStep
      obtain ⟨h0w, h0h, _⟩ := processLayer_ok_elim d scale cs canvas l c₀ hw hh hStep
      exact ih c₀ h0w h0h
    · intro h; cases h
    · rename_i hStep
      exact absurd hStep (processLayer_not_panik d scale cs canvas l hw hh)

theorem processChunkGo_isOk (d : SymbolArtDrawer) (scale : ℚ) (cs : Nat × Nat) :
    ∀ (ls : List Layer) (canvas : Img),
      canvas.w = cs.1 → canvas.h = cs.2 →
      (d.suppressFailure = true ∨ ∀ l ∈ ls, layerOk d scale l) →
      (processChunkGo d scale cs canvas ls).isOk = true := by
  intro ls
  induction ls with
  | nil => intro canvas _ _ _; rfl
  | cons l ls ih =>
    intro canvas hw hh hok
    have hokl : d.suppressFailure = true ∨ layerOk d scale l := by
      cases hok with
      | inl hSup => exact Or.inl hSup
      | inr hall => exact Or.inr (hall l (List.mem_cons_self l ls))
    have hokls : d.suppressFailure = true ∨ ∀ l' ∈ ls, layerOk d scale l' := by
      cases hok with
      | inl hSup => exact Or.inl hSup
      | inr hall => exact Or.inr (fun l' h' => hall l' (List.mem_cons_of_mem _ h'))
    unfold processChunkGo
    split
    · rename_i c₀ hStep
      obtain ⟨h0w, h0h, _⟩ := processLayer_ok_elim d scale cs canvas l c₀ hw hh hStep
      exact ih c₀ h0w h0h hokls
    · rename_i hStep
      have := processLayer_isOk d scale cs canvas l hw hh hokl
      rw [hStep] at this
      cases this
    · rename_i hStep
      have := processLayer_isOk d scale cs canvas l hw hh hokl
      rw [hStep] at this
      cases this

theorem processChunk_ok_elim (d : SymbolArtDrawer) (scale : ℚ) (cs : Nat × Nat)
    (chunk : List Layer) (S : Img)
    (h : processChunk d scale cs chunk = POut.ok S) :
    S.w = cs.1 ∧ S.h = cs.2 ∧
      ∀ x y, x < cs.1 → y < cs.2 →
        S.pix x y =
          List.foldl (fun col l => blend col (srcAt d scale cs l x y))
            transparentC chunk.reverse := by
  obtain ⟨hw, hh, hpix⟩ :=
    processChunkGo_ok_elim d scale cs chunk.reverse (Img.new cs.1 cs.2) S rfl rfl h
  exact ⟨hw, hh, fun x y hx hy => hpix x y hx hy⟩

theorem processChunk_not_panik (d : SymbolArtDrawer) (scale : ℚ) (cs : Nat × Nat)
    (chunk : List Layer) : processChunk d scale cs chunk ≠ POut.panik :=
  processChunkGo_not_panik d scale cs chunk.reverse (Img.new cs.1 cs.2) rfl rfl

theorem processChunk_isOk (d : SymbolArtDrawer) (scale : ℚ) (cs : Nat × Nat)
    (chunk : List Layer)
    (hok : d.suppressFailure = true ∨ ∀ l ∈ chunk, layerOk d scale l) :
    (processChunk d scale cs chunk).isOk = true := by
  refine processChunkGo_isOk d scale cs chunk.reverse (Img.new cs.1 cs.2) rfl rfl ?_
  cases hok with
  | inl hSup => exact Or.inl hSup
  | inr hall => exact Or.inr (fun l h => hall l (List.mem_reverse.mp h))

theorem POut_isOk_elim (r : POut Img) (h : r.isOk = true) (dflt : Img) :
    r = POut.ok (r.getD dflt) := by
  cases r with
  | ok i => rfl
  | err e => cases h
  | panik => cases h

/-! Facts about `chunksOf`. -/

theorem chunksOfGo_fuel {α : Type} :
    ∀ (f₁ f₂ n : Nat) (l : List α), l.length ≤ f₁ → l.length ≤ f₂ → 1 ≤ n →
      chunksOfGo f₁ n l = chunksOfGo f₂ n l := by
  intro f₁
  induction f₁ with
  | zero =>
    intro f₂ n l h₁ h₂ hn
    cases l with
    | nil => cases f₂ <;> rfl
    | cons a as => simp at h₁
  | succ g₁ ih =>
    intro f₂ n l h₁ h₂ hn
    cases l with
    | nil => cases f₂ <;> rfl
    | cons a as =>
      cases f₂ with
      | zero => simp at h₂
      | succ g₂ =>
        simp only [chunksOfGo]
        have hd : ((a :: as).drop n).length ≤ g₁ := by
          rw [List.length_drop]
          simp only [List.length_cons] at h₁ ⊢
          omega
        have hd₂ : ((a :: as).drop n).length ≤ g₂ := by
          rw [List.length_drop]
          simp only [List.length_cons] at h₂ ⊢
          omega
        rw [ih g₂ n ((a :: as).drop n) hd hd₂ hn]

theorem chunksOf_nil {α : Type} (n : Nat) : chunksOf n ([] : List α) = [] := rfl

theorem chunksOf_cons {α : Type} (n : Nat) (hn : 1 ≤ n) (a : α) (as : List α) :
    chunksOf n (a :: as) = (a :: as).take n :: chunksOf n ((a :: as).drop n) := by
  show chunksOfGo (as.length + 1) n (a :: as) = _
  simp only [chunksOfGo]
  unfold chunksOf
  rw [chunksOfGo_fuel as.length ((a :: as).drop n).length n ((a :: as).drop n)
    (by rw [List.length_drop]; simp only [List.length_cons]; omega) le_rfl hn]

theorem chunksOfGo_flatten {α : Type} (n : Nat) (hn : 1 ≤ n) :
    ∀ (fuel : Nat) (l : List α), l.length ≤ fuel → (chunksOfGo fuel n l).flatten = l := by
  intro fuel
  induction fuel with
  | zero =>
    intro l h
    cases l with
    | nil => rfl
    | cons a as => simp at h
  | succ g ih =>
    intro l h
    cases l with
    | nil => rfl
    | cons a as =>
      simp only [chunksOfGo, List.flatten_cons]
      rw [ih ((a :: as).drop n)
        (by rw [List.length_drop]; simp only [List.length_cons] at h ⊢; omega)]
      exact List.take_append_drop n (a :: as)

theorem chunksOf_flatten {α : Type} (n : Nat) (hn : 1 ≤ n) (l : List α) :
    (chunksOf n l).flatten = l :=
  chunksOfGo_flatten n hn l.length l le_rfl

theorem mem_of_mem_chunksOf {α : Type} (n : Nat) (hn : 1 ≤ n) {l : List α}
    {c : List α} (hc : c ∈ chunksOf n l) {a : α} (ha : a ∈ c) : a ∈ l := by
  rw [← chunksOf_flatten n hn l]
  exact List.mem_flatten.mpr ⟨c, hc, ha⟩

theorem chunksOfGo_map {α β : Type} (g : α → β) :
    ∀ (fuel n : Nat) (l : List α),
      chunksOfGo fuel n (l.map g) = (chunksOfGo fuel n l).map (List.map g) := by
  intro fuel
  induction fuel with
  | zero =>
    intro n l
    cases l <;> rfl
  | succ f ih =>
    intro n l
    cases l with
    | nil => rfl
    | cons a as =>
      simp only [List.map_cons, chunksOfGo]
      rw [← List.map_cons g a as, ← List.map_take, ← List.map_drop, ih]

theorem chunksOf_map {α β : Type} (g : α → β) (n : Nat) (l : List α) :
    chunksOf n (l.map g) = (chunksOf n l).map (List.map g) := by
  unfold chunksOf
  rw [List.length_map, chunksOfGo_map]

/-! Facts about `enumIdx`. -/

theorem enumIdx_key_ge {α : Type} :
    ∀ (i : Nat) (l : List α) (p : Nat × α), p ∈ enumIdx i l → i ≤ p.1 := by
  intro i l
  induction l generalizing i with
  | nil => intro p h; cases h
  | cons a as ih =>
    intro p h
    cases h with
    | head => exact le_rfl
    | tail _ h' => exact Nat.le_of_succ_le (ih (i + 1) p h')

theorem enumIdx_pairwise_lt {α : Type} :
    ∀ (i : Nat) (l : List α), List.Pairwise (fun p q => p.1 < q.1) (enumIdx i l) := by
  intro i l
  induction l generalizing i with
  | nil => exact List.Pairwise.nil
  | cons a as ih =>
    refine List.Pairwise.cons ?_ (ih (i + 1))
    intro q hq
    exact Nat.lt_of_succ_le (enumIdx_key_ge (i + 1) as q hq)

theorem enumIdx_map {α β : Type} (g : α → β) :
    ∀ (i : Nat) (l : List α),
      enumIdx i (l.map g) = (enumIdx i l).map (fun p => (p.1, g p.2)) := by
  intro i l
  induction l generalizing i with
  | nil => rfl
  | cons a as ih =>
    simp only [List.map_cons, enumIdx, ih (i + 1)]

/-! Facts about the result-list predicates. -/

theorem firstError_eq_none (rs : List (Nat × POut Img)) :
    firstError rs = Option.none ↔ ∀ p ∈ rs, isErrP p.2 = false := by
  induction rs with
  | nil => simp [firstError]
  | cons p ps ih =>
    obtain ⟨i, r⟩ := p
    cases r with
    | ok c => simp [firstError, ih, isErrP]
    | err e => simp [firstError, isErrP]
    | panik => simp [firstError, ih, isErrP]

theorem hasPanik_eq_false (rs : List (Nat × POut Img)) :
    hasPanik rs = false ↔ ∀ p ∈ rs, isPanikP p.2 = false := by
  induction rs with
  | nil => simp [hasPanik]
  | cons p ps ih =>
    obtain ⟨i, r⟩ := p
    cases r with
    | ok c => simp [hasPanik, ih, isPanikP]
    | err e => simp [hasPanik, ih, isPanikP]
    | panik => simp [hasPanik, isPanikP]

theorem POut_isOk_of (r : POut Img) (he : isErrP r = false) (hp : isPanikP r = false) :
    r.isOk = true := by
  cases r with
  | ok c => rfl
  | err e => cases he
  | panik => cases hp

theorem collectOk_of_all_ok (dflt : Img) :
    ∀ (rs : List (Nat × POut Img)), (∀ p ∈ rs, (p.2).isOk = true) →
      collectOk rs = rs.map (fun p => (p.1, (p.2).getD dflt)) := by
  intro rs
  induction rs with
  | nil => intro _; rfl
  | cons p ps ih =>
    intro h
    obtain ⟨i, r⟩ := p
    cases r with
    | ok c =>
      simp only [collectOk, List.map_cons]
      rw [ih (fun q hq => h q (List.mem_cons_of_mem _ hq))]
      rfl
    | err e => exact absurd (h (i, POut.err e) (List.mem_cons_self _ _)) (by simp [POut.isOk])
    | panik => exact absurd (h (i, POut.panik) (List.mem_cons_self _ _)) (by simp [POut.isOk])

theorem collectOk_mem_keys (rs : List (Nat × POut Img)) (q : Nat × Img)
    (hq : q ∈ collectOk rs) : ∃ p ∈ rs, p.1 = q.1 := by
  induction rs with
  | nil => cases hq
  | cons p ps ih =>
    obtain ⟨i, r⟩ := p
    cases r with
    | ok c =>
      cases hq with
      | head => exact ⟨(i, POut.ok c), List.mem_cons_self _ _, rfl⟩
      | tail _ hq' =>
        obtain ⟨p', hp', hk⟩ := ih hq'
        exact ⟨p', List.mem_cons_of_mem _ hp', hk⟩
    | err e =>
      obtain ⟨p', hp', hk⟩ := ih hq
      exact ⟨p', List.mem_cons_of_mem _ hp', hk⟩
    | panik =>
      obtain ⟨p', hp', hk⟩ := ih hq
      exact ⟨p', List.mem_cons_of_mem _ hp', hk⟩

theorem collectOk_pairwise (rs : List (Nat × POut Img))
    (h : List.Pairwise (fun p q => p.1 < q.1) rs) :
    List.Pairwise keyLT (collectOk rs) := by
  induction rs with
  | nil => exact List.Pairwise.nil
  | cons p ps ih =>
    obtain ⟨hhead, htail⟩ := List.pairwise_cons.mp h
    obtain ⟨i, r⟩ := p
    cases r with
    | ok c =>
      refine List.Pairwise.cons ?_ (ih htail)
      intro q hq
      obtain ⟨p', hp', hk⟩ := collectOk_mem_keys ps q hq
      have := hhead p' hp'
      show (i, c).1 < q.1
      omega
    | err e => exact ih htail
    | panik => exact ih htail

/-! Sorting of the overlay list. -/

theorem keyLE_of_keyLT (p q : Nat × Img) (h : keyLT p q) : keyLE p q :=
  Nat.le_of_lt h

theorem sorted_keyLT_of_sorted_nodup (l : List (Nat × Img))
    (hs : List.Sorted keyLE l) (hnd : List.Pairwise (fun p q => p.1 ≠ q.1) l) :
    List.Sorted keyLT l := by
  have hand := List.Pairwise.and hs hnd
  exact hand.imp (fun h => Nat.lt_of_le_of_ne h.1 h.2)

theorem mergeList_sorted (rs : List (Nat × POut Img)) :
    List.Sorted keyLE (mergeList rs) :=
  List.sorted_insertionSort keyLE (collectOk rs)

theorem mergeList_of_sorted (rs : List (Nat × POut Img))
    (h : List.Sorted keyLE (collectOk rs)) : mergeList rs = collectOk rs :=
  List.Sorted.insertionSort_eq h

theorem insertionSort_eq_of_perm (l₁ l₂ : List (Nat × Img)) (hp : l₁.Perm l₂)
    (hnd : List.Pairwise (fun p q => p.1 ≠ q.1) l₁) :
    List.insertionSort keyLE l₁ = List.insertionSort keyLE l₂ := by
  have hsymm : ∀ {p q : Nat × Img}, p.1 ≠ q.1 → q.1 ≠ p.1 :=
    fun h => Ne.symm h
  have hnd₂ : List.Pairwise (fun p q => p.1 ≠ q.1) l₂ :=
    (hp.pairwise_iff hsymm).mp hnd
  have hnd₁' : List.Pairwise (fun p q => p.1 ≠ q.1) (List.insertionSort keyLE l₁) :=
    ((List.perm_insertionSort keyLE l₁).pairwise_iff hsymm).mpr hnd
  have hnd₂' : List.Pairwise (fun p q => p.1 ≠ q.1) (List.insertionSort keyLE l₂) :=
    ((List.perm_insertionSort keyLE l₂).pairwise_iff hsymm).mpr hnd₂
  have hs₁ : List.Sorted keyLT (List.insertionSort keyLE l₁) :=
    sorted_keyLT_of_sorted_nodup _ (List.sorted_insertionSort keyLE l₁) hnd₁'
  have hs₂ : List.Sorted keyLT (List.insertionSort keyLE l₂) :=
    sorted_keyLT_of_sorted_nodup _ (List.sorted_insertionSort keyLE l₂) hnd₂'
  refine List.eq_of_perm_of_sorted ?_ hs₁ hs₂
  exact ((List.perm_insertionSort keyLE l₁).trans hp).trans
    (List.perm_insertionSort keyLE l₂).symm

/-! The merge fold. -/

theorem foldl_overlay_w (olist : List (Nat × Img)) :
    ∀ base : Img, (olist.foldl (fun c p => overlay c p.2) base).w = base.w := by
  induction olist with
  | nil => intro base; rfl
  | cons p ps ih => intro base; exact ih (overlay base p.2)

theorem foldl_overlay_h (olist : List (Nat × Img)) :
    ∀ base : Img, (olist.foldl (fun c p => overlay c p.2) base).h = base.h := by
  induction olist with
  | nil => intro base; rfl
  | cons p ps ih => intro base; exact ih (overlay base p.2)

theorem foldl_overlay_pix (olist : List (Nat × Img)) :
    ∀ (base : Img) (x y : Nat), x < base.w → y < base.h →
      (∀ p ∈ olist, p.2.w = base.w ∧ p.2.h = base.h) →
      (olist.foldl (fun c p => overlay c p.2) base).pix x y =
        olist.foldl (fun col p => blend col (p.2.pix x y)) (base.pix x y) := by
  induction olist with
  | nil => intro base x y _ _ _; rfl
  | cons p ps ih =>
    intro base x y hx hy hdim
    obtain ⟨hpw, hph⟩ := hdim p (List.mem_cons_self p ps)
    have hstep : (overlay base p.2).pix x y = blend (base.pix x y) (p.2.pix x y) :=
      overlay_pix base p.2 x y hx (hpw ▸ hx) hy (hph ▸ hy)
    have hdim' : ∀ q ∈ ps, q.2.w = (overlay base p.2).w ∧ q.2.h = (overlay base p.2).h := by
      intro q hq
      exact hdim q (List.mem_cons_of_mem _ hq)
    calc (((p :: ps).foldl (fun c q => overlay c q.2) base)).pix x y
        = (ps.foldl (fun c q => overlay c q.2) (overlay base p.2)).pix x y := rfl
      _ = ps.foldl (fun col q => blend col (q.2.pix x y)) ((overlay base p.2).pix x y) :=
          ih (overlay base p.2) x y hx hy hdim'
      _ = ps.foldl (fun col q => blend col (q.2.pix x y)) (blend (base.pix x y) (p.2.pix x y)) := by
          rw [hstep]

/-! The crop step. -/

theorem crop_ok_elim (d : SymbolArtDrawer) (sa : SymbolArt) (scale : ℚ)
    (canvas : Img) (out : Img) (h : crop d sa scale canvas = POut.ok out) :
    out.w = (calc_view_size sa scale).1 ∧ out.h = (calc_view_size sa scale).2 ∧
      cropX d sa scale + (calc_view_size sa scale).1 ≤ (calc_canvas_size d scale).1 ∧
      cropY d sa scale + (calc_view_size sa scale).2 ≤ (calc_canvas_size d scale).2 ∧
      ∀ x y, x < (calc_view_size sa scale).1 → y < (calc_view_size sa scale).2 →
        out.pix x y = canvas.pix (cropX d sa scale + x) (cropY d sa scale + y) := by
  unfold crop at h
  split at h
  · cases h
  · rename_i hUnder
    split at h
    · cases h
    · rename_i hBound
      cases h
      push_neg at hBound
      refine ⟨rfl, rfl, hBound.1, hBound.2, fun x y hx hy => ?_⟩
      show (if x < _ ∧ y < _ then _ else _) = _
      rw [if_pos ⟨hx, hy⟩]

theorem crop_congr (d : SymbolArtDrawer) (sa : SymbolArt) (scale : ℚ)
    (c₁ c₂ : Img) (h : ∀ x y, c₁.pix x y = c₂.pix x y) :
    crop d sa scale c₁ = crop d sa scale c₂ := by
  unfold crop
  split
  · rfl
  · split
    · rfl
    · refine congrArg POut.ok (congrArg (Img.mk _ _) ?_)
      funext x y
      split
      · exact h _ _
      · rfl

theorem crop_chunk_size_irrel (d : SymbolArtDrawer) (k : Nat) (sa : SymbolArt)
    (scale : ℚ) (c : Img) :
    crop (with_chunk_size d k) sa scale c = crop d sa scale c := rfl

/-! Success/error elimination for `draw_with_scale`. -/

theorem draw_with_scale_ok_elim (d : SymbolArtDrawer) (sa : SymbolArt) (scale : ℚ)
    (out : Img) (h : draw_with_scale d sa scale = POut.ok out) :
    d.chunkSize ≠ 0 ∧ firstError (drawResults d sa scale) = Option.none ∧
      hasPanik (drawResults d sa scale) = false ∧
      crop d sa scale (mergedCanvas d sa scale) = POut.ok out := by
  unfold draw_with_scale at h
  split at h
  · cases h
  · rename_i hcz
    unfold finishDraw at h
    split at h
    · cases h
    · rename_i hfe
      split at h
      · cases h
      · rename_i hpk
        refine ⟨hcz, hfe, ?_, h⟩
        cases hb : hasPanik (drawResults d sa scale) with
        | false => rfl
        | true => exact absurd hb hpk

theorem draw_with_scale_eq_crop (d : SymbolArtDrawer) (sa : SymbolArt) (scale : ℚ)
    (hcz : d.chunkSize ≠ 0)
    (hfe : firstError (drawResults d sa scale) = Option.none)
    (hpk : hasPanik (drawResults d sa scale) = false) :
    draw_with_scale d sa scale = crop d sa scale (mergedCanvas d sa scale) := by
  unfold draw_with_scale finishDraw
  rw [if_neg hcz, hfe, hpk]
  rfl

theorem draw_with_scale_err (d : SymbolArtDrawer) (sa : SymbolArt) (scale : ℚ)
    (e : SARError) (hcz : d.chunkSize ≠ 0)
    (hfe : firstError (drawResults d sa scale) = Option.some e) :
    draw_with_scale d sa scale = POut.err e := by
  unfold draw_with_scale finishDraw
  rw [if_neg hcz, hfe]

/-! Generic fold facts. -/

theorem enumIdx_foldl {α β : Type} (g : β → α → β) :
    ∀ (i : Nat) (l : List α) (init : β),
      (enumIdx i l).foldl (fun b p => g b p.2) init = l.foldl g init := by
  intro i l
  induction l generalizing i with
  | nil => intro init; rfl
  | cons a as ih => intro init; exact ih (i + 1) (g init a)

theorem foldl_congr_mem {α β : Type} (f g : β → α → β) :
    ∀ (l : List α) (init : β), (∀ acc a, a ∈ l → f acc a = g acc a) →
      l.foldl f init = l.foldl g init := by
  intro l
  induction l with
  | nil => intro init _; rfl
  | cons a as ih =>
    intro init h
    show as.foldl f (f init a) = as.foldl g (g init a)
    rw [h init a (List.mem_cons_self a as)]
    exact ih (g init a) (fun acc a' ha' => h acc a' (List.mem_cons_of_mem _ ha'))

theorem opFold_flatten :
    ∀ (ls : List (List Color)) (c : Color),
      opFold c ls.flatten = ls.foldl opFold c := by
  intro ls
  induction ls with
  | nil => intro c; rfl
  | cons l ls ih =>
    intro c
    rw [List.flatten_cons, opFold_append, ih (opFold c l)]
    rfl

theorem foldl_blend_srcs (g : Layer → Color) :
    ∀ (ls : List Layer) (c : Color),
      ls.foldl (fun col l => blend col (g l)) c = List.foldl blend c (ls.map g) := by
  intro ls
  induction ls with
  | nil => intro c; rfl
  | cons l ls ih => intro c; exact ih (blend c (g l))

theorem foldl_opFold_flatten {α : Type} (f : α → List Color) :
    ∀ (ls : List α) (c : Color),
      ls.foldl (fun col a => opFold col (f a)) c = opFold c (ls.map f).flatten := by
  intro ls
  induction ls with
  | nil => intro c; rfl
  | cons a as ih =>
    intro c
    rw [List.map_cons, List.flatten_cons, opFold_append]
    exact ih (opFold c (f a))

theorem exists_enumIdx_of_mem {α : Type} {a : α} :
    ∀ (i : Nat) (l : List α), a ∈ l → ∃ p ∈ enumIdx i l, p.2 = a := by
  intro i l
  induction l generalizing i with
  | nil => intro h; cases h
  | cons b bs ih =>
    intro h
    cases h with
    | head => exact ⟨(i, a), List.mem_cons_self _ _, rfl⟩
    | tail _ h' =>
      obtain ⟨p, hp, hpc⟩ := ih (i + 1) h'
      exact ⟨p, List.mem_cons_of_mem _ hp, hpc⟩

/-! Structural facts about `drawResults` and the merged canvas. -/

theorem drawResults_pairwise_lt (d : SymbolArtDrawer) (sa : SymbolArt) (scale : ℚ) :
    List.Pairwise (fun p q => p.1 < q.1) (drawResults d sa scale) := by
  unfold drawResults
  exact (enumIdx_pairwise_lt 0 _).map _ (fun a b h => h)

theorem drawResults_all_ok (d : SymbolArtDrawer) (sa : SymbolArt) (scale : ℚ)
    (hfe : firstError (drawResults d sa scale) = Option.none)
    (hpk : hasPanik (drawResults d sa scale) = false) :
    ∀ p ∈ drawResults d sa scale, (p.2).isOk = true :=
  fun p hp =>
    POut_isOk_of _ ((firstError_eq_none _).mp hfe p hp)
      ((hasPanik_eq_false _).mp hpk p hp)

theorem processChunk_isOk_of_results (d : SymbolArtDrawer) (sa : SymbolArt)
    (scale : ℚ) (hok : ∀ p ∈ drawResults d sa scale, (p.2).isOk = true)
    (chunk : List Layer)
    (hchunk : chunk ∈ (chunksOf d.chunkSize sa.layers).reverse) :
    (processChunk d scale (calc_canvas_size d scale) chunk).isOk = true := by
  obtain ⟨q, hq, hqc⟩ := exists_enumIdx_of_mem 0 _ hchunk
  have hres : (q.1, processChunk d scale (calc_canvas_size d scale) q.2) ∈
      drawResults d sa scale := by
    unfold drawResults
    exact List.mem_map.mpr ⟨q, hq, rfl⟩
  have := hok _ hres
  rw [hqc] at this
  exact this

theorem collectOk_drawResults (d : SymbolArtDrawer) (sa : SymbolArt) (scale : ℚ)
    (hok : ∀ p ∈ drawResults d sa scale, (p.2).isOk = true) :
    collectOk (drawResults d sa scale) =
      (enumIdx 0 (chunksOf d.chunkSize sa.layers).reverse).map
        (fun p => (p.1, chunkCanvas d scale (calc_canvas_size d scale) p.2)) := by
  rw [collectOk_of_all_ok
    (Img.new (calc_canvas_size d scale).1 (calc_canvas_size d scale).2) _ hok]
  unfold drawResults
  rw [List.map_map]
  rfl

theorem collectOk_drawResults_sorted (d : SymbolArtDrawer) (sa : SymbolArt)
    (scale : ℚ) : List.Sorted keyLE (collectOk (drawResults d sa scale)) :=
  (collectOk_pairwise _ (drawResults_pairwise_lt d sa scale)).imp
    (fun h => Nat.le_of_lt h)

theorem mergedCanvas_w (d : SymbolArtDrawer) (sa : SymbolArt) (scale : ℚ) :
    (mergedCanvas d sa scale).w = (calc_canvas_size d scale).1 :=
  foldl_overlay_w _ _

theorem mergedCanvas_h (d : SymbolArtDrawer) (sa : SymbolArt) (scale : ℚ) :
    (mergedCanvas d sa scale).h = (calc_canvas_size d scale).2 :=
  foldl_overlay_h _ _

theorem chunkCanvas_w (d : SymbolArtDrawer) (scale : ℚ) (cs : Nat × Nat)
    (chunk : List Layer) : (chunkCanvas d scale cs chunk).w = cs.1 := by
  unfold chunkCanvas
  cases hr : processChunk d scale cs chunk with
  | ok S => exact (processChunk_ok_elim d scale cs chunk S hr).1
  | err e => rfl
  | panik => rfl

theorem chunkCanvas_h (d : SymbolArtDrawer) (scale : ℚ) (cs : Nat × Nat)
    (chunk : List Layer) : (chunkCanvas d scale cs chunk).h = cs.2 := by
  unfold chunkCanvas
  cases hr : processChunk d scale cs chunk with
  | ok S => exact (processChunk_ok_elim d scale cs chunk S hr).2.1
  | err e => rfl
  | panik => rfl

theorem chunkCanvas_pix (d : SymbolArtDrawer) (scale : ℚ) (cs : Nat × Nat)
    (chunk : List Layer) (hok : (processChunk d scale cs chunk).isOk = true)
    (x y : Nat) (hx : x < cs.1) (hy : y < cs.2) :
    (chunkCanvas d scale cs chunk).pix x y =
      List.foldl (fun col l => blend col (srcAt d scale cs l x y))
        transparentC chunk.reverse := by
  unfold chunkCanvas
  cases hr : processChunk d scale cs chunk with
  | ok S => exact (processChunk_ok_elim d scale cs chunk S hr).2.2 x y hx hy
  | err e => rw [hr] at hok; cases hok
  | panik => rw [hr] at hok; cases hok

theorem mergedCanvas_pix (d : SymbolArtDrawer) (sa : SymbolArt) (scale : ℚ)
    (hok : ∀ p ∈ drawResults d sa scale, (p.2).isOk = true) (x y : Nat)
    (hx : x < (calc_canvas_size d scale).1) (hy : y < (calc_canvas_size d scale).2) :
    (mergedCanvas d sa scale).pix x y =
      ((chunksOf d.chunkSize sa.layers).reverse).foldl
        (fun col chunk =>
          blend col ((chunkCanvas d scale (calc_canvas_size d scale) chunk).pix x y))
        transparentC := by
  unfold mergedCanvas mergeResults
  rw [mergeList_of_sorted _ (collectOk_drawResults_sorted d sa scale),
    collectOk_drawResults d sa scale hok]
  have hdim : ∀ p ∈ (enumIdx 0 (chunksOf d.chunkSize sa.layers).reverse).map
      (fun p => (p.1, chunkCanvas d scale (calc_canvas_size d scale) p.2)),
      p.2.w = (baseCanvas d scale).w ∧ p.2.h = (baseCanvas d scale).h := by
    intro p hp
    obtain ⟨q, _, hq⟩ := List.mem_map.mp hp
    rw [← hq]
    exact ⟨chunkCanvas_w d scale _ q.2, chunkCanvas_h d scale _ q.2⟩
  rw [foldl_overlay_pix _ (baseCanvas d scale) x y hx hy hdim, List.foldl_map,
    enumIdx_foldl (fun col chunk =>
      blend col ((chunkCanvas d scale (calc_canvas_size d scale) chunk).pix x y)) 0]
  rfl

/-! The per-pixel value of the merged canvas as a last-writer-wins fold over
the flat source sequence, for any chunk size — the heart of chunk
invariance. -/

theorem mergedCanvas_pix_opFold (d : SymbolArtDrawer) (sa : SymbolArt) (scale : ℚ)
    (hcz : d.chunkSize ≠ 0)
    (hok : ∀ p ∈ drawResults d sa scale, (p.2).isOk = true)
    (hop : ∀ l ∈ sa.layers, ∀ x, x < (calc_canvas_size d scale).1 →
      ∀ y, y < (calc_canvas_size d scale).2 →
        (srcAt d scale (calc_canvas_size d scale) l x y).a = 0 ∨
        (srcAt d scale (calc_canvas_size d scale) l x y).a = 255)
    (x y : Nat)
    (hx : x < (calc_canvas_size d scale).1) (hy : y < (calc_canvas_size d scale).2) :
    (mergedCanvas d sa scale).pix x y =
      opFold transparentC (srcSeq d scale (calc_canvas_size d scale) sa.layers x y) := by
  have hn : 1 ≤ d.chunkSize := Nat.one_le_iff_ne_zero.mpr hcz
  have hsrcop : ∀ chunk ∈ (chunksOf d.chunkSize sa.layers).reverse, ∀ s ∈
      (chunk.reverse.map (fun l => srcAt d scale (calc_canvas_size d scale) l x y)),
      s.a = 0 ∨ s.a = 255 := by
    intro chunk hchunk s hs
    obtain ⟨l, hl, hls⟩ := List.mem_map.mp hs
    have hlmem : l ∈ sa.layers :=
      mem_of_mem_chunksOf d.chunkSize hn (List.mem_reverse.mp hchunk)
        (List.mem_reverse.mp hl)
    rw [← hls]
    exact hop l hlmem x hx y hy
  rw [mergedCanvas_pix d sa scale hok x y hx hy]
  rw [foldl_congr_mem _ (fun col chunk =>
      opFold col (chunk.reverse.map (fun l => srcAt d scale (calc_canvas_size d scale) l x y)))
      _ _ ?side]
  case side =>
    intro acc chunk hchunk
    rw [chunkCanvas_pix d scale _ chunk
        (processChunk_isOk_of_results d sa scale hok chunk hchunk) x y hx hy,
      foldl_blend_srcs (fun l => srcAt d scale (calc_canvas_size d scale) l x y)
        chunk.reverse transparentC,
      foldl_blend_eq_opFold _ (hsrcop chunk hchunk)]
    exact blend_opFold _ (hsrcop chunk hchunk) acc
  rw [foldl_opFold_flatten
    (fun chunk => chunk.reverse.map (fun l => srcAt d scale (calc_canvas_size d scale) l x y))
    ((chunksOf d.chunkSize sa.layers).reverse) transparentC]
  unfold srcSeq
  congr 1
  have hmapcomp :
      ((chunksOf d.chunkSize sa.layers).reverse).map
        (fun chunk => chunk.reverse.map (fun l => srcAt d scale (calc_canvas_size d scale) l x y)) =
      (((chunksOf d.chunkSize sa.layers).reverse).map List.reverse).map
        (List.map (fun l => srcAt d scale (calc_canvas_size d scale) l x y)) := by
    rw [List.map_map]
    rfl
  rw [hmapcomp, ← List.map_flatten]
  congr 1
  rw [List.map_reverse, ← List.reverse_flatten, chunksOf_flatten d.chunkSize hn]

/-! The first stored layer paints last: wherever its contribution is opaque
it determines the merged canvas. -/

theorem mergedCanvas_pix_topmost (d : SymbolArtDrawer) (sa : SymbolArt) (scale : ℚ)
    (hcz : d.chunkSize ≠ 0)
    (hok : ∀ p ∈ drawResults d sa scale, (p.2).isOk = true)
    (A : Layer) (rest : List Layer) (hlay : sa.layers = A :: rest) (x y : Nat)
    (hx : x < (calc_canvas_size d scale).1) (hy : y < (calc_canvas_size d scale).2)
    (hA : (srcAt d scale (calc_canvas_size d scale) A x y).a = 255) :
    (mergedCanvas d sa scale).pix x y = srcAt d scale (calc_canvas_size d scale) A x y := by
  have hn : 1 ≤ d.chunkSize := Nat.one_le_iff_ne_zero.mpr hcz
  rw [mergedCanvas_pix d sa scale hok x y hx hy, hlay]
  obtain ⟨m, hm⟩ : ∃ m, d.chunkSize = m + 1 := ⟨d.chunkSize - 1, by omega⟩
  rw [hm, chunksOf_cons (m + 1) (by omega) A rest, List.take_succ_cons]
  have hfirstok : (processChunk d scale (calc_canvas_size d scale)
      (A :: rest.take m)).isOk = true := by
    refine processChunk_isOk_of_results d sa scale hok (A :: rest.take m) ?_
    rw [hlay, hm, chunksOf_cons (m + 1) (by omega) A rest, List.take_succ_cons,
      List.mem_reverse]
    exact List.mem_cons_self _ _
  rw [List.reverse_cons, List.foldl_append]
  have hchunkpix : (chunkCanvas d scale (calc_canvas_size d scale)
      (A :: rest.take m)).pix x y = srcAt d scale (calc_canvas_size d scale) A x y := by
    rw [chunkCanvas_pix d scale _ _ hfirstok x y hx hy, List.reverse_cons,
      List.foldl_append]
    show blend _ (srcAt d scale (calc_canvas_size d scale) A x y) = _
    exact blend_src_fullAlpha _ _ hA
  show blend _ ((chunkCanvas d scale (calc_canvas_size d scale) (A :: rest.take m)).pix x y) = _
  rw [hchunkpix]
  exact blend_src_fullAlpha _ _ hA

/-! Hidden layers are interchangeable: `scrub` does not change a render. -/

theorem processLayer_scrub (d : SymbolArtDrawer) (scale : ℚ) (cs : Nat × Nat)
    (canvas : Img) (l : Layer) :
    processLayer d scale cs canvas (scrub l) = processLayer d scale cs canvas l := by
  unfold scrub
  split
  · rename_i h
    rw [processLayer_hidden d scale cs canvas hiddenDefault rfl,
      processLayer_hidden d scale cs canvas l h]
  · rfl

theorem processChunkGo_scrub (d : SymbolArtDrawer) (scale : ℚ) (cs : Nat × Nat) :
    ∀ (ls : List Layer) (canvas : Img),
      processChunkGo d scale cs canvas (ls.map scrub) =
        processChunkGo d scale cs canvas ls := by
  intro ls
  induction ls with
  | nil => intro canvas; rfl
  | cons l ls ih =>
    intro canvas
    show processChunkGo d scale cs canvas (scrub l :: ls.map scrub) = _
    unfold processChunkGo
    rw [processLayer_scrub]
    cases processLayer d scale cs canvas l with
    | ok c' => exact ih c'
    | err e => rfl
    | panik => rfl

theorem processChunk_scrub (d : SymbolArtDrawer) (scale : ℚ) (cs : Nat × Nat)
    (chunk : List Layer) :
    processChunk d scale cs (chunk.map scrub) = processChunk d scale cs chunk := by
  unfold processChunk
  rw [← List.map_reverse]
  exact processChunkGo_scrub d scale cs chunk.reverse (Img.new cs.1 cs.2)

theorem drawResults_scrub (d : SymbolArtDrawer) (sa : SymbolArt) (scale : ℚ) :
    drawResults d (SymbolArt.mk sa.width sa.height (sa.layers.map scrub)) scale =
      drawResults d sa scale := by
  unfold drawResults
  show (enumIdx 0 (chunksOf d.chunkSize (sa.layers.map scrub)).reverse).map _ = _
  rw [chunksOf_map, ← List.map_reverse, enumIdx_map, List.map_map]
  refine List.map_congr_left ?_
  intro p hp
  show (p.1, processChunk d scale (calc_canvas_size d scale) (p.2.map scrub)) = _
  rw [processChunk_scrub]

theorem draw_with_scale_scrub (d : SymbolArtDrawer) (sa : SymbolArt) (scale : ℚ) :
    draw_with_scale d (SymbolArt.mk sa.width sa.height (sa.layers.map scrub)) scale =
      draw_with_scale d sa scale := by
  unfold draw_with_scale
  rw [drawResults_scrub d sa scale]
  rfl

/-! Error-freeness of the result list under suppression or layer validity. -/

theorem enumIdx_snd_mem {α : Type} :
    ∀ (i : Nat) (l : List α) (p : Nat × α), p ∈ enumIdx i l → p.2 ∈ l := by
  intro i l
  induction l generalizing i with
  | nil => intro p h; cases h
  | cons a as ih =>
    intro p h
    cases h with
    | head => exact List.mem_cons_self _ _
    | tail _ h' => exact List.mem_cons_of_mem _ (ih (i + 1) p h')

theorem isErrP_of_isOk {α : Type} (r : POut α) (h : r.isOk = true) :
    isErrP r = false := by
  cases r with
  | ok a => rfl
  | err e => cases h
  | panik => cases h

theorem isPanikP_of_isOk {α : Type} (r : POut α) (h : r.isOk = true) :
    isPanikP r = false := by
  cases r with
  | ok a => rfl
  | err e => cases h
  | panik => cases h

theorem drawResults_all_isOk (d : SymbolArtDrawer) (sa : SymbolArt) (scale : ℚ)
    (hok : d.suppressFailure = true ∨ ∀ l ∈ sa.layers, layerOk d scale l)
    (hn : 1 ≤ d.chunkSize) :
    ∀ p ∈ drawResults d sa scale, (p.2).isOk = true := by
  intro p hp
  unfold drawResults at hp
  obtain ⟨q, hq, hqp⟩ := List.mem_map.mp hp
  rw [← hqp]
  refine processChunk_isOk d scale _ q.2 ?_
  cases hok with
  | inl hSup => exact Or.inl hSup
  | inr hall =>
    refine Or.inr (fun l hl => hall l ?_)
    have hq2 : q.2 ∈ (chunksOf d.chunkSize sa.layers).reverse :=
      enumIdx_snd_mem 0 _ q hq
    exact mem_of_mem_chunksOf d.chunkSize hn (List.mem_reverse.mp hq2) hl

theorem drawResults_no_err (d : SymbolArtDrawer) (sa : SymbolArt) (scale : ℚ)
    (hok : d.suppressFailure = true ∨ ∀ l ∈ sa.layers, layerOk d scale l)
    (hn : 1 ≤ d.chunkSize) :
    firstError (drawResults d sa scale) = Option.none ∧
      hasPanik (drawResults d sa scale) = false := by
  have hall := drawResults_all_isOk d sa scale hok hn
  constructor
  · exact (firstError_eq_none _).mpr (fun p hp => isErrP_of_isOk _ (hall p hp))
  · exact (hasPanik_eq_false _).mpr (fun p hp => isPanikP_of_isOk _ (hall p hp))

/-! Out-of-bounds pixels of the merged canvas stay transparent. -/

theorem foldl_overlay_pix_outside (olist : List (Nat × Img)) :
    ∀ (base : Img) (x y : Nat), ¬(x < base.w ∧ y < base.h) →
      (olist.foldl (fun c p => overlay c p.2) base).pix x y = base.pix x y := by
  induction olist with
  | nil => intro base x y _; rfl
  | cons p ps ih =>
    intro base x y hout
    have hstep : (overlay base p.2).pix x y = base.pix x y := by
      simp only [overlay]
      rw [if_neg]
      intro ⟨hx, hy⟩
      exact hout ⟨lt_of_lt_of_le hx (min_le_left _ _), lt_of_lt_of_le hy (min_le_left _ _)⟩
    have := ih (overlay base p.2) x y hout
    rw [show ((p :: ps).foldl (fun c q => overlay c q.2) base) =
      (ps.foldl (fun c q => overlay c q.2) (overlay base p.2)) from rfl, this, hstep]

theorem mergedCanvas_pix_outside (d : SymbolArtDrawer) (sa : SymbolArt) (scale : ℚ)
    (x y : Nat)
    (hout : ¬(x < (calc_canvas_size d scale).1 ∧ y < (calc_canvas_size d scale).2)) :
    (mergedCanvas d sa scale).pix x y = transparentC :=
  foldl_overlay_pix_outside _ (baseCanvas d scale) x y hout

/-! Miscellaneous glue. -/

theorem srcAt_chunk_size_irrel (d : SymbolArtDrawer) (k : Nat) (scale : ℚ)
    (cs : Nat × Nat) (l : Layer) (x y : Nat) :
    srcAt (with_chunk_size d k) scale cs l x y = srcAt d scale cs l x y := rfl

theorem calc_canvas_size_chunk_size_irrel (d : SymbolArtDrawer) (k : Nat) (scale : ℚ) :
    calc_canvas_size (with_chunk_size d k) scale = calc_canvas_size d scale := rfl

theorem sameImage_refl (i : Img) : sameImage i i :=
  ⟨rfl, rfl, fun _ _ _ _ => rfl⟩

theorem pixEq_refl (r : POut Img) : pixEq r r := by
  cases r with
  | ok i => exact sameImage_refl i
  | err e => rfl
  | panik => trivial

theorem pixEq_of_eq (r₁ r₂ : POut Img) (h : r₁ = r₂) : pixEq r₁ r₂ :=
  h ▸ pixEq_refl r₁

theorem draw_with_scale_def (d : SymbolArtDrawer) (sa : SymbolArt) (scale : ℚ)
    (hcz : d.chunkSize ≠ 0) :
    draw_with_scale d sa scale = finishDraw d sa scale (drawResults d sa scale) := by
  unfold draw_with_scale
  rw [if_neg hcz]

theorem collectOk_eq_filterMap (rs : List (Nat × POut Img)) :
    collectOk rs = rs.filterMap (fun p =>
      match p.2 with
      | POut.ok c => Option.some (p.1, c)
      | _ => Option.none) := by
  induction rs with
  | nil => rfl
  | cons p ps ih =>
    obtain ⟨i, r⟩ := p
    cases r with
    | ok c => simp [collectOk, List.filterMap_cons, ih]
    | err e => simp [collectOk, List.filterMap_cons, ih]
    | panik => simp [collectOk, List.filterMap_cons, ih]

theorem crop_eq_ok (d : SymbolArtDrawer) (sa : SymbolArt) (scale : ℚ) (canvas : Img)
    (hfitx : cropX d sa scale + (calc_view_size sa scale).1 ≤ (calc_canvas_size d scale).1)
    (hfity : cropY d sa scale + (calc_view_size sa scale).2 ≤ (calc_canvas_size d scale).2) :
    crop d sa scale canvas = POut.ok (cropImg d sa scale canvas) := by
  have hvx : (calc_view_size sa scale).1 ≤ (calc_canvas_size d scale).1 := by omega
  have hvy : (calc_view_size sa scale).2 ≤ (calc_canvas_size d scale).2 := by omega
  unfold crop
  rw [if_neg (by omega), if_neg (by omega)]

/-! Chunk lists of one- and two-element layer lists. -/

theorem chunksOf_singleton {α : Type} (n : Nat) (hn : 1 ≤ n) (b : α) :
    chunksOf n [b] = [[b]] := by
  rw [chunksOf_cons n hn b []]
  rw [List.take_of_length_le (by simp; omega), List.drop_of_length_le (by simp; omega),
    chunksOf_nil]

theorem chunksOf_pair_one {α : Type} (a b : α) : chunksOf 1 [a, b] = [[a], [b]] := by
  rw [chunksOf_cons 1 le_rfl a [b]]
  show [a] :: chunksOf 1 [b] = _
  rw [chunksOf_singleton 1 le_rfl b]

theorem chunksOf_pair_ge {α : Type} (n : Nat) (hn : 2 ≤ n) (a b : α) :
    chunksOf n [a, b] = [[a, b]] := by
  rw [chunksOf_cons n (by omega) a [b]]
  rw [List.take_of_length_le (by simp; omega), List.drop_of_length_le (by simp; omega),
    chunksOf_nil]

/-! Strict-mode behavior for a layer whose symbol is not in the cache. -/

theorem processLayer_bad_strict (d : SymbolArtDrawer) (scale : ℚ) (cs : Nat × Nat)
    (canvas : Img) (a : Layer) (hHid : a.hidden = false)
    (hImg : d.resource.getImage a.symbolId = Option.none)
    (hSup : d.suppressFailure = false) :
    processLayer d scale cs canvas a = POut.err (SARError.symbolNotFound a.symbolId) := by
  simp [processLayer, hHid, hImg, hSup]

theorem processChunk_single_bad (d : SymbolArtDrawer) (scale : ℚ) (cs : Nat × Nat)
    (a : Layer) (hHid : a.hidden = false)
    (hImg : d.resource.getImage a.symbolId = Option.none)
    (hSup : d.suppressFailure = false) :
    processChunk d scale cs [a] = POut.err (SARError.symbolNotFound a.symbolId) := by
  show processChunkGo d scale cs (Img.new cs.1 cs.2) [a] = _
  unfold processChunkGo
  rw [processLayer_bad_strict d scale cs _ a hHid hImg hSup]

theorem processChunk_pair_bad_first_stored (d : SymbolArtDrawer) (scale : ℚ)
    (cs : Nat × Nat) (a b : Layer) (hb : layerOk d scale b)
    (hHid : a.hidden = false)
    (hImg : d.resource.getImage a.symbolId = Option.none)
    (hSup : d.suppressFailure = false) :
    processChunk d scale cs [a, b] = POut.err (SARError.symbolNotFound a.symbolId) := by
  show processChunkGo d scale cs (Img.new cs.1 cs.2) [b, a] = _
  have hbok := processLayer_isOk d scale cs (Img.new cs.1 cs.2) b rfl rfl (Or.inr hb)
  unfold processChunkGo
  rw [POut_isOk_elim _ hbok (Img.new cs.1 cs.2)]
  show processChunkGo d scale cs _ [a] = _
  unfold processChunkGo
  rw [processLayer_bad_strict d scale cs _ a hHid hImg hSup]

theorem processChunk_pair_bad_second_stored (d : SymbolArtDrawer) (scale : ℚ)
    (cs : Nat × Nat) (a b : Layer) (hHid : a.hidden = false)
    (hImg : d.resource.getImage a.symbolId = Option.none)
    (hSup : d.suppressFailure = false) :
    processChunk d scale cs [b, a] = POut.err (SARError.symbolNotFound a.symbolId) := by
  show processChunkGo d scale cs (Img.new cs.1 cs.2) [a, b] = _
  unfold processChunkGo
  rw [processLayer_bad_strict d scale cs _ a hHid hImg hSup]

/-! Chunk-size invariance of the whole pipeline under fully opaque or
transparent sources. -/

theorem draw_with_scale_chunk_size_eq (d : SymbolArtDrawer) (sa : SymbolArt)
    (scale : ℚ) (cs₁ cs₂ : Nat) (h₁ : 1 ≤ cs₁) (h₂ : 1 ≤ cs₂)
    (hok : d.suppressFailure = true ∨ ∀ l ∈ sa.layers, layerOk d scale l)
    (hop : ∀ l ∈ sa.layers, ∀ x, x < (calc_canvas_size d scale).1 →
      ∀ y, y < (calc_canvas_size d scale).2 →
        (srcAt d scale (calc_canvas_size d scale) l x y).a = 0 ∨
        (srcAt d scale (calc_canvas_size d scale) l x y).a = 255) :
    draw_with_scale (with_chunk_size d cs₁) sa scale =
      draw_with_scale (with_chunk_size d cs₂) sa scale := by
  have key : ∀ k : Nat, 1 ≤ k →
      draw_with_scale (with_chunk_size d k) sa scale =
        crop d sa scale (mergedCanvas (with_chunk_size d k) sa scale) := by
    intro k hk
    have hok' : (with_chunk_size d k).suppressFailure = true ∨
        ∀ l ∈ sa.layers, layerOk (with_chunk_size d k) scale l := hok
    obtain ⟨hfe, hpk⟩ := drawResults_no_err (with_chunk_size d k) sa scale hok' hk
    rw [draw_with_scale_eq_crop (with_chunk_size d k) sa scale (by show k ≠ 0; omega)
      hfe hpk, crop_chunk_size_irrel]
  have pixkey : ∀ k : Nat, 1 ≤ k → ∀ x y : Nat,
      (mergedCanvas (with_chunk_size d k) sa scale).pix x y =
        (if x < (calc_canvas_size d scale).1 ∧ y < (calc_canvas_size d scale).2 then
          opFold transparentC (srcSeq d scale (calc_canvas_size d scale) sa.layers x y)
        else transparentC) := by
    intro k hk x y
    have hok' : (with_chunk_size d k).suppressFailure = true ∨
        ∀ l ∈ sa.layers, layerOk (with_chunk_size d k) scale l := hok
    by_cases hin : x < (calc_canvas_size d scale).1 ∧ y < (calc_canvas_size d scale).2
    · rw [if_pos hin]
      exact mergedCanvas_pix_opFold (with_chunk_size d k) sa scale (by show k ≠ 0; omega)
        (drawResults_all_isOk (with_chunk_size d k) sa scale hok' hk) hop x y hin.1 hin.2
    · rw [if_neg hin]
      exact mergedCanvas_pix_outside (with_chunk_size d k) sa scale x y hin
  rw [key cs₁ h₁, key cs₂ h₂]
  refine crop_congr d sa scale _ _ ?_
  intro x y
  rw [pixkey cs₁ h₁ x y, pixkey cs₂ h₂ x y]

/-! The chunk loop as a fold over the reversed layer list. -/

theorem foldl_layerStep_err (d : SymbolArtDrawer) (scale : ℚ) (cs : Nat × Nat)
    (e : SARError) : ∀ ls : List Layer,
      ls.foldl (layerStep d scale cs) (POut.err e) = POut.err e := by
  intro ls
  induction ls with
  | nil => rfl
  | cons l ls ih => exact ih

theorem foldl_layerStep_panik (d : SymbolArtDrawer) (scale : ℚ) (cs : Nat × Nat) :
    ∀ ls : List Layer,
      ls.foldl (layerStep d scale cs) POut.panik = POut.panik := by
  intro ls
  induction ls with
  | nil => rfl
  | cons l ls ih => exact ih

theorem processChunkGo_eq_foldl (d : SymbolArtDrawer) (scale : ℚ) (cs : Nat × Nat) :
    ∀ (ls : List Layer) (canvas : Img),
      processChunkGo d scale cs canvas ls =
        ls.foldl (layerStep d scale cs) (POut.ok canvas) := by
  intro ls
  induction ls with
  | nil => intro canvas; rfl
  | cons l ls ih =>
    intro canvas
    unfold processChunkGo
    show _ = ls.foldl (layerStep d scale cs) (layerStep d scale cs (POut.ok canvas) l)
    show _ = ls.foldl (layerStep d scale cs) (processLayer d scale cs canvas l)
    cases hr : processLayer d scale cs canvas l with
    | ok c' => exact ih c'
    | err e => exact (foldl_layerStep_err d scale cs e ls).symm
    | panik => exact (foldl_layerStep_panik d scale cs ls).symm

/-! First-error and panic membership facts. -/

theorem firstError_some_mem (rs : List (Nat × POut Img)) (e : SARError)
    (h : firstError rs = Option.some e) : ∃ p ∈ rs, p.2 = POut.err e := by
  induction rs with
  | nil => cases h
  | cons p ps ih =>
    obtain ⟨i, r⟩ := p
    cases r with
    | ok c =>
      obtain ⟨q, hq, hqe⟩ := ih h
      exact ⟨q, List.mem_cons_of_mem _ hq, hqe⟩
    | err e' =>
      cases h
      exact ⟨(i, POut.err e), List.mem_cons_self _ _, rfl⟩
    | panik =>
      obtain ⟨q, hq, hqe⟩ := ih h
      exact ⟨q, List.mem_cons_of_mem _ hq, hqe⟩

theorem hasPanik_true_mem (rs : List (Nat × POut Img))
    (h : hasPanik rs = true) : ∃ p ∈ rs, p.2 = POut.panik := by
  induction rs with
  | nil => cases h
  | cons p ps ih =>
    obtain ⟨i, r⟩ := p
    cases r with
    | ok c =>
      obtain ⟨q, hq, hqe⟩ := ih h
      exact ⟨q, List.mem_cons_of_mem _ hq, hqe⟩
    | err e' =>
      obtain ⟨q, hq, hqe⟩ := ih h
      exact ⟨q, List.mem_cons_of_mem _ hq, hqe⟩
    | panik => exact ⟨(i, POut.panik), List.mem_cons_self _ _, rfl⟩

/-! The first error reported for a two-layer composition whose first or
second stored layer has an unknown symbol id, under strict mode. -/

theorem firstError_drawResults_two_layers (d : SymbolArtDrawer) (sa : SymbolArt)
    (scale : ℚ) (a b : Layer)
    (hlay : sa.layers = [a, b] ∨ sa.layers = [b, a])
    (hHid : a.hidden = false)
    (hImg : d.resource.getImage a.symbolId = Option.none)
    (hb : layerOk d scale b) (hcz : d.chunkSize ≠ 0)
    (hSup : d.suppressFailure = false) :
    firstError (drawResults d sa scale) =
      Option.some (SARError.symbolNotFound a.symbolId) := by
  have hbchunk : d.suppressFailure = true ∨ ∀ l ∈ [b], layerOk d scale l := by
    refine Or.inr (fun l hl => ?_)
    cases hl with
    | head => exact hb
    | tail _ h => cases h
  rcases Nat.lt_or_ge d.chunkSize 2 with h1 | h2
  · have hc1 : d.chunkSize = 1 := by omega
    cases hlay with
    | inl h =>
      unfold drawResults
      rw [h, hc1, chunksOf_pair_one a b]
      show firstError
        [(0, processChunk d scale (calc_canvas_size d scale) [b]),
         (1, processChunk d scale (calc_canvas_size d scale) [a])] = _
      rw [POut_isOk_elim (processChunk d scale (calc_canvas_size d scale) [b])
          (processChunk_isOk d scale (calc_canvas_size d scale) [b] hbchunk)
          (Img.new (calc_canvas_size d scale).1 (calc_canvas_size d scale).2),
        processChunk_single_bad d scale (calc_canvas_size d scale) a hHid hImg hSup]
      rfl
    | inr h =>
      unfold drawResults
      rw [h, hc1, chunksOf_pair_one b a]
      show firstError
        [(0, processChunk d scale (calc_canvas_size d scale) [a]),
         (1, processChunk d scale (calc_canvas_size d scale) [b])] = _
      rw [processChunk_single_bad d scale (calc_canvas_size d scale) a hHid hImg hSup]
      rfl
  · cases hlay with
    | inl h =>
      unfold drawResults
      rw [h, chunksOf_pair_ge d.chunkSize h2 a b]
      show firstError
        [(0, processChunk d scale (calc_canvas_size d scale) [a, b])] = _
      rw [processChunk_pair_bad_first_stored d scale (calc_canvas_size d scale) a b hb
        hHid hImg hSup]
      rfl
    | inr h =>
      unfold drawResults
      rw [h, chunksOf_pair_ge d.chunkSize h2 b a]
      show firstError
        [(0, processChunk d scale (calc_canvas_size d scale) [b, a])] = _
      rw [processChunk_pair_bad_second_stored d scale (calc_canvas_size d scale) a b
        hHid hImg hSup]
      rfl

/-! With failures suppressed, a two-layer composition containing one
unresolvable layer renders exactly like the composition with only the valid
layer. -/

theorem draw_two_layers_suppressed (d : SymbolArtDrawer) (sa : SymbolArt)
    (scale : ℚ) (a b : Layer)
    (hlay : sa.layers = [a, b] ∨ sa.layers = [b, a])
    (hHid : a.hidden = false)
    (hImg : d.resource.getImage a.symbolId = Option.none)
    (hcz : d.chunkSize ≠ 0) (hSup : d.suppressFailure = true) :
    draw_with_scale d sa scale =
      draw_with_scale d (SymbolArt.mk sa.width sa.height [b]) scale := by
  have hn : 1 ≤ d.chunkSize := by omega
  obtain ⟨hfe, hpk⟩ := drawResults_no_err d sa scale (Or.inl hSup) hn
  obtain ⟨hfeB, hpkB⟩ :=
    drawResults_no_err d (SymbolArt.mk sa.width sa.height [b]) scale (Or.inl hSup) hn
  rw [draw_with_scale_eq_crop d sa scale hcz hfe hpk,
    draw_with_scale_eq_crop d (SymbolArt.mk sa.width sa.height [b]) scale hcz hfeB hpkB]
  have hcropB : ∀ c, crop d (SymbolArt.mk sa.width sa.height [b]) scale c =
      crop d sa scale c := fun c => rfl
  rw [hcropB]
  refine crop_congr d sa scale _ _ ?_
  intro x y
  by_cases hin : x < (calc_canvas_size d scale).1 ∧ y < (calc_canvas_size d scale).2
  · have hokA := drawResults_all_ok d sa scale hfe hpk
    have hokB := drawResults_all_ok d (SymbolArt.mk sa.width sa.height [b]) scale hfeB hpkB
    rw [mergedCanvas_pix d sa scale hokA x y hin.1 hin.2,
      mergedCanvas_pix d (SymbolArt.mk sa.width sa.height [b]) scale hokB x y hin.1 hin.2]
    have hok1 : ∀ chunk, (processChunk d scale (calc_canvas_size d scale) chunk).isOk = true :=
      fun chunk => processChunk_isOk d scale (calc_canvas_size d scale) chunk (Or.inl hSup)
    have hpix : ∀ chunk, (chunkCanvas d scale (calc_canvas_size d scale) chunk).pix x y =
        List.foldl (fun col l => blend col (srcAt d scale (calc_canvas_size d scale) l x y))
          transparentC chunk.reverse :=
      fun chunk => chunkCanvas_pix d scale _ chunk (hok1 chunk) x y hin.1 hin.2
    have hsrcA : srcAt d scale (calc_canvas_size d scale) a x y = transparentC :=
      srcAt_noImage d scale _ a x y (by simp [hHid]) hImg
    have hBchunks : chunksOf d.chunkSize (SymbolArt.mk sa.width sa.height [b]).layers
        = [[b]] := chunksOf_singleton d.chunkSize hn b
    rw [hBchunks]
    show _ = blend transparentC ((chunkCanvas d scale (calc_canvas_size d scale) [b]).pix x y)
    have hchunkA0 : (chunkCanvas d scale (calc_canvas_size d scale) [a]).pix x y =
        transparentC := by
      rw [hpix [a]]
      show blend transparentC (srcAt d scale (calc_canvas_size d scale) a x y) = _
      rw [hsrcA]
      exact blend_src_transparent _ _ rfl
    rcases Nat.lt_or_ge d.chunkSize 2 with h1 | h2
    · have hc1 : d.chunkSize = 1 := by omega
      cases hlay with
      | inl h =>
        rw [h, hc1, chunksOf_pair_one a b]
        show blend (blend transparentC
            ((chunkCanvas d scale (calc_canvas_size d scale) [b]).pix x y))
            ((chunkCanvas d scale (calc_canvas_size d scale) [a]).pix x y) = _
        rw [hchunkA0]
        exact blend_src_transparent _ _ rfl
      | inr h =>
        rw [h, hc1, chunksOf_pair_one b a]
        show blend (blend transparentC
            ((chunkCanvas d scale (calc_canvas_size d scale) [a]).pix x y))
            ((chunkCanvas d scale (calc_canvas_size d scale) [b]).pix x y) = _
        rw [hchunkA0, blend_src_transparent transparentC transparentC rfl]
    · cases hlay with
      | inl h =>
        rw [h, chunksOf_pair_ge d.chunkSize h2 a b]
        show blend transparentC
            ((chunkCanvas d scale (calc_canvas_size d scale) [a, b]).pix x y) = _
        have : (chunkCanvas d scale (calc_canvas_size d scale) [a, b]).pix x y =
            (chunkCanvas d scale (calc_canvas_size d scale) [b]).pix x y := by
          rw [hpix [a, b], hpix [b]]
          show blend (blend transparentC (srcAt d scale (calc_canvas_size d scale) b x y))
              (srcAt d scale (calc_canvas_size d scale) a x y) = _
          rw [hsrcA]
          exact blend_src_transparent _ _ rfl
        rw [this]
      | inr h =>
        rw [h, chunksOf_pair_ge d.chunkSize h2 b a]
        show blend transparentC
            ((chunkCanvas d scale (calc_canvas_size d scale) [b, a]).pix x y) = _
        have : (chunkCanvas d scale (calc_canvas_size d scale) [b, a]).pix x y =
            (chunkCanvas d scale (calc_canvas_size d scale) [b]).pix x y := by
          rw [hpix [b, a], hpix [b]]
          show blend (blend transparentC (srcAt d scale (calc_canvas_size d scale) a x y))
              (srcAt d scale (calc_canvas_size d scale) b x y) = _
          rw [hsrcA, blend_src_transparent transparentC transparentC rfl]
          rfl
        rw [this]
  · rw [mergedCanvas_pix_outside d sa scale x y hin,
      mergedCanvas_pix_outside d (SymbolArt.mk sa.width sa.height [b]) scale x y hin]

/-! ## Claim theorems -/

/-- C9: `draw` returns exactly the same result as `draw_with_scale` at
scale 1.0 — the same bitmap on success and the same error on failure
(`draw.rs`, `fn draw`). -/
theorem C9_draw_equals_draw_with_scale_one (d : SymbolArtDrawer) (sa : SymbolArt) :
    draw d sa = draw_with_scale d sa 1 := rfl

/-- C5: at a composition whose scaled logical size (8×8) exceeds the
working canvas (4×4), `draw_with_scale` panics — the unchecked `u32`
subtraction `canvas_size/2 - view_size/2` underflows and the
`sub_image(..).to_image()` reads run out of bounds — instead of returning
the `InternalSizeInvariantViolation` error required by the claim, an error
`draw.rs` never constructs. -/
theorem C5_oversized_view_panics : draw_with_scale drawer44 saBig 1 = POut.panik := by
  with_unfolding_all rfl

/-- C10: every `symbol.get_pixel(x, y)` read of `render_symbol` is in
bounds whenever the symbol buffer has the base canvas's dimensions, and in
`draw_with_scale` every scratch buffer and every chunk sub-canvas is
created with the working canvas size (`RgbaImage::new(canvas_size.0,
canvas_size.1)`), so no chunk computation can panic. -/
theorem C10_render_symbol_in_bounds :
    (∀ (base symbol : Img) (rc : RenderColor), symbol.w = base.w → symbol.h = base.h →
      (render_symbol base symbol rc).isSome = true) ∧
    ∀ (d : SymbolArtDrawer) (scale : ℚ) (chunk : List Layer),
      processChunk d scale (calc_canvas_size d scale) chunk ≠ POut.panik :=
  ⟨render_symbol_isSome, fun d scale chunk => processChunk_not_panik d scale _ chunk⟩

theorem C10_render_symbol_in_bounds_witness :
    (maskImg1.w = maskImg1.w ∧ maskImg1.h = maskImg1.h) ∧
      (render_symbol maskImg1 maskImg1 RenderColor.none).isSome = true :=
  ⟨⟨rfl, rfl⟩, C10_render_symbol_in_bounds.1 maskImg1 maskImg1 RenderColor.none rfl rfl⟩

/-- C4: a hidden layer never affects the result: `processLayer` skips it
before any cache lookup or projection, returning the chunk canvas unchanged
with no error; consequently replacing a hidden layer by any other hidden
layer — whatever its symbol id (even absent from the cache), corners (even
degenerate) or color — leaves the entire result of `draw_with_scale`
unchanged, so a hidden layer can neither change pixels nor cause
`SymbolNotFound` or `ProjectionError`. -/
theorem C4_hidden_layer_inert :
    (∀ (d : SymbolArtDrawer) (scale : ℚ) (cs : Nat × Nat) (canvas : Img) (l : Layer),
      l.hidden = true → processLayer d scale cs canvas l = POut.ok canvas) ∧
    ∀ (d : SymbolArtDrawer) (scale : ℚ) (sa : SymbolArt) (pre post : List Layer)
      (h h' : Layer), h.hidden = true → h'.hidden = true →
      draw_with_scale d (SymbolArt.mk sa.width sa.height (pre ++ h :: post)) scale =
        draw_with_scale d (SymbolArt.mk sa.width sa.height (pre ++ h' :: post)) scale := by
  constructor
  · exact processLayer_hidden
  · intro d scale sa pre post h h' hh hh'
    have e1 := draw_with_scale_scrub d
      (SymbolArt.mk sa.width sa.height (pre ++ h :: post)) scale
    have e2 := draw_with_scale_scrub d
      (SymbolArt.mk sa.width sa.height (pre ++ h' :: post)) scale
    have hmap : (pre ++ h :: post).map scrub = (pre ++ h' :: post).map scrub := by
      simp only [List.map_append, List.map_cons]
      have hsc : scrub h = scrub h' := by simp [scrub, hh, hh']
      rw [hsc]
    rw [← e1, ← e2]
    show draw_with_scale d (SymbolArt.mk sa.width sa.height ((pre ++ h :: post).map scrub))
        scale = _
    rw [hmap]

theorem C4_hidden_layer_inert_witness :
    (hiddenBad.hidden = true ∧ hiddenDefault.hidden = true) ∧
      draw_with_scale drawer1
          (SymbolArt.mk (1 : Nat) 1 ([] ++ hiddenBad :: [layerA])) 1 =
        draw_with_scale drawer1
          (SymbolArt.mk (1 : Nat) 1 ([] ++ hiddenDefault :: [layerA])) 1 :=
  ⟨⟨rfl, rfl⟩,
    C4_hidden_layer_inert.2 drawer1 1 ⟨1, 1, []⟩ [] [layerA] hiddenBad hiddenDefault rfl rfl⟩

/-- C2: inside `draw_with_scale`, every chunk is rasterized as the fold of
`processLayer` over the chunk's layers in reverse-of-storage order
(`chunk.iter().rev()`); the collected sub-canvases are merged onto the base
canvas sorted ascending by the chunk indices the code assigns (its
`enumerate()` runs after `.rev()`, so ascending index is descending storage
position) with each merge drawn on top of the accumulated canvas; and as a
consequence the stored sequence's first element paints last (topmost):
wherever its contribution is opaque it gives the merged canvas's color. -/
theorem C2_chunk_and_merge_order :
    (∀ (d : SymbolArtDrawer) (scale : ℚ) (cs : Nat × Nat) (chunk : List Layer),
      processChunk d scale cs chunk =
        chunk.reverse.foldl (layerStep d scale cs) (POut.ok (Img.new cs.1 cs.2))) ∧
    (∀ (d : SymbolArtDrawer) (sa : SymbolArt) (scale : ℚ),
      List.Sorted keyLE (mergeList (drawResults d sa scale)) ∧
      mergedCanvas d sa scale =
        (mergeList (drawResults d sa scale)).foldl (fun c p => overlay c p.2)
          (baseCanvas d scale)) ∧
    (∀ (bottom top : Img) (x y : Nat), x < bottom.w → x < top.w → y < bottom.h →
      y < top.h → (overlay bottom top).pix x y = blend (bottom.pix x y) (top.pix x y)) ∧
    ∀ (d : SymbolArtDrawer) (sa : SymbolArt) (scale : ℚ) (A : Layer)
      (rest : List Layer) (x y : Nat),
      sa.layers = A :: rest →
      (draw_with_scale d sa scale).isOk = true →
      x < (calc_canvas_size d scale).1 → y < (calc_canvas_size d scale).2 →
      (srcAt d scale (calc_canvas_size d scale) A x y).a = 255 →
      (mergedCanvas d sa scale).pix x y =
        srcAt d scale (calc_canvas_size d scale) A x y := by
  refine ⟨fun d scale cs chunk => processChunkGo_eq_foldl d scale cs chunk.reverse _,
    fun d sa scale => ⟨mergeList_sorted _, rfl⟩, overlay_pix, ?_⟩
  intro d sa scale A rest x y hlay hisok hx hy hA
  have heq := POut_isOk_elim _ hisok (Img.new 0 0)
  obtain ⟨hcz, hfe, hpk, _⟩ := draw_with_scale_ok_elim d sa scale _ heq
  exact mergedCanvas_pix_topmost d sa scale hcz
    (drawResults_all_ok d sa scale hfe hpk) A rest hlay x y hx hy hA

theorem C2_chunk_and_merge_order_witness :
    ((srcAt drawer1 1 (calc_canvas_size drawer1 1) layerA 0 0).a = 255 ∧
      (draw_with_scale drawer1 saOrder 1).isOk = true) ∧
      (mergedCanvas drawer1 saOrder 1).pix 0 0 =
        srcAt drawer1 1 (calc_canvas_size drawer1 1) layerA 0 0 :=
  ⟨⟨of_decide_eq_true (by with_unfolding_all rfl),
    of_decide_eq_true (by with_unfolding_all rfl)⟩,
   C2_chunk_and_merge_order.2.2.2 drawer1 saOrder 1 layerA [layerB] 0 0 rfl
     (of_decide_eq_true (by with_unfolding_all rfl))
     (of_decide_eq_true (by with_unfolding_all rfl))
     (of_decide_eq_true (by with_unfolding_all rfl))
     (of_decide_eq_true (by with_unfolding_all rfl))⟩

/-- C1 counterexample: a composition of two fully overlapping opaque
layers, `layerA` (red) stored before `layerB` (blue).  The rendered overlap
pixel carries A's color, not B's expected color as the claim states: the
first stored layer ends up on top. -/
theorem C1_order_counterexample :
    outPix (draw drawer1 saOrder) 0 0 = ⟨255, 0, 0, 255⟩ ∧
      layerB.color = ⟨0, 0, 255, 255⟩ ∧
      (⟨255, 0, 0, 255⟩ : Color) ≠ ⟨0, 0, 255, 255⟩ := by
  refine ⟨by with_unfolding_all rfl, rfl, by decide⟩

/-- C1 (amended): for a composition of two overlapping opaque layers in
which layer A precedes layer B in storage order, A's shape — not B's — is
visible on top wherever A covers a pixel (in particular on all of the
overlap with B): B is painted first and then overwritten by A, so the
output color there equals A's expected color. -/
theorem C1_first_layer_on_top :
    ∀ (d : SymbolArtDrawer) (sa : SymbolArt) (scale : ℚ) (A B : Layer)
      (imgA : Img) (projA : Projection) (x y : Nat),
      sa.layers = [A, B] →
      A.hidden = false →
      d.resource.getImage A.symbolId = Option.some (ResImage.symbol imgA) →
      get_projection d A scale = Except.ok projA →
      A.color.a = 255 →
      (draw_with_scale d sa scale).isOk = true →
      x < (calc_view_size sa scale).1 → y < (calc_view_size sa scale).2 →
      0 < ((warp_into imgA projA transparentC
          (Img.new (calc_canvas_size d scale).1 (calc_canvas_size d scale).2)).pix
            (cropX d sa scale + x) (cropY d sa scale + y)).a →
      outPix (draw_with_scale d sa scale) x y = A.color := by
  intro d sa scale A B imgA projA x y hlay hHid hImg hProj hAop hisok hx hy hmask
  have heq := POut_isOk_elim _ hisok (Img.new 0 0)
  obtain ⟨hcz, hfe, hpk, hcrop⟩ := draw_with_scale_ok_elim d sa scale _ heq
  obtain ⟨hw, hh, hfitx, hfity, hcpix⟩ := crop_ok_elim d sa scale _ _ hcrop
  have hsrc : srcAt d scale (calc_canvas_size d scale) A
      (cropX d sa scale + x) (cropY d sa scale + y) = A.color := by
    rw [srcAt_visible d scale (calc_canvas_size d scale) A _ _ (by simp [hHid])
      (ResImage.symbol imgA) hImg projA hProj]
    simp only [ResImage.inner]
    rw [if_pos hmask]
    rfl
  have hsrca : (srcAt d scale (calc_canvas_size d scale) A
      (cropX d sa scale + x) (cropY d sa scale + y)).a = 255 := by
    rw [hsrc]; exact hAop
  have hxin : cropX d sa scale + x < (calc_canvas_size d scale).1 := by omega
  have hyin : cropY d sa scale + y < (calc_canvas_size d scale).2 := by omega
  have htop := mergedCanvas_pix_topmost d sa scale hcz
    (drawResults_all_ok d sa scale hfe hpk) A [B] hlay
    (cropX d sa scale + x) (cropY d sa scale + y) hxin hyin hsrca
  rw [heq]
  show ((draw_with_scale d sa scale).getD (Img.new 0 0)).pix x y = A.color
  rw [hcpix x y hx hy, htop, hsrc]

theorem C1_first_layer_on_top_witness :
    (get_projection drawer1 layerA 1 = Except.ok idProjection ∧
      (draw_with_scale drawer1 saOrder 1).isOk = true) ∧
      outPix (draw_with_scale drawer1 saOrder 1) 0 0 = layerA.color :=
  ⟨⟨by with_unfolding_all rfl, by with_unfolding_all rfl⟩,
   C1_first_layer_on_top drawer1 saOrder 1 layerA layerB maskImg1 idProjection 0 0
     rfl rfl (by with_unfolding_all rfl) (by with_unfolding_all rfl) rfl
     (by with_unfolding_all rfl)
     (of_decide_eq_true (by with_unfolding_all rfl))
     (of_decide_eq_true (by with_unfolding_all rfl))
     (of_decide_eq_true (by with_unfolding_all rfl))⟩

/-- C7 counterexample: on an eleven-layer composition with semi-transparent
layers and no errors, chunk size 1 and chunk size 10 produce different
pixels (127 versus 126 in the color channels): per-chunk quantization of
the alpha blend is not associative across chunk boundaries. -/
theorem C7_chunk_size_counterexample :
    outPix (draw_with_scale (with_chunk_size drawer1 1) saChunkCex 1) 0 0 =
        ⟨127, 127, 127, 255⟩ ∧
      outPix (draw_with_scale (with_chunk_size drawer1 10) saChunkCex 1) 0 0 =
        ⟨126, 126, 126, 255⟩ ∧
      (⟨127, 127, 127, 255⟩ : Color) ≠ ⟨126, 126, 126, 255⟩ :=
  ⟨by with_unfolding_all rfl, by with_unfolding_all rfl, by decide⟩

/-- C7 (amended): for every composition whose layers produce no errors (or
with failures suppressed), the result of `draw_with_scale` is identical for
any two chunk sizes ≥ 1 — in particular for 1, 10, and any size larger than
the layer count — provided every per-layer blend source is fully
transparent or fully opaque; with intermediate alpha values the per-chunk
quantization of blending can change pixel values. -/
theorem C7_chunk_invariance_for_opaque_sources :
    ∀ (d : SymbolArtDrawer) (sa : SymbolArt) (scale : ℚ) (cs₁ cs₂ : Nat),
      1 ≤ cs₁ → 1 ≤ cs₂ →
      (d.suppressFailure = true ∨ ∀ l ∈ sa.layers, layerOk d scale l) →
      (∀ l ∈ sa.layers, ∀ x, x < (calc_canvas_size d scale).1 →
        ∀ y, y < (calc_canvas_size d scale).2 →
          (srcAt d scale (calc_canvas_size d scale) l x y).a = 0 ∨
          (srcAt d scale (calc_canvas_size d scale) l x y).a = 255) →
      draw_with_scale (with_chunk_size d cs₁) sa scale =
        draw_with_scale (with_chunk_size d cs₂) sa scale :=
  fun d sa scale cs₁ cs₂ h₁ h₂ hok hop =>
    draw_with_scale_chunk_size_eq d sa scale cs₁ cs₂ h₁ h₂ hok hop

theorem C7_chunk_invariance_for_opaque_sources_witness :
    ((drawer1.suppressFailure = true ∨ ∀ l ∈ saOrder.layers, layerOk drawer1 1 l) ∧
      (∀ l ∈ saOrder.layers, ∀ x, x < (calc_canvas_size drawer1 1).1 →
        ∀ y, y < (calc_canvas_size drawer1 1).2 →
          (srcAt drawer1 1 (calc_canvas_size drawer1 1) l x y).a = 0 ∨
          (srcAt drawer1 1 (calc_canvas_size drawer1 1) l x y).a = 255)) ∧
      draw_with_scale (with_chunk_size drawer1 1) saOrder 1 =
        draw_with_scale (with_chunk_size drawer1 3) saOrder 1 :=
  ⟨⟨Or.inl rfl, of_decide_eq_true (by with_unfolding_all rfl)⟩,
   C7_chunk_invariance_for_opaque_sources drawer1 saOrder 1 1 3 (by decide) (by decide)
     (Or.inl rfl) (of_decide_eq_true (by with_unfolding_all rfl))⟩

/-- C6: for every composition and positive scale at which `draw_with_scale`
succeeds, the output bitmap's dimensions are exactly
`floor(width·scale) × floor(height·scale)`, its content is the
sub-rectangle of the merged working canvas at the centered offsets
`(canvas_w/2 − view_w/2, canvas_h/2 − view_h/2)`, and those offsets are
centered: the left/right (and top/bottom) margins differ by at most one
pixel. -/
theorem C6_output_is_centered_scaled_view :
    ∀ (d : SymbolArtDrawer) (sa : SymbolArt) (scale : ℚ) (out : Img),
      0 < scale →
      draw_with_scale d sa scale = POut.ok out →
      (out.w = natOfRat ((sa.width : ℚ) * scale) ∧
        out.h = natOfRat ((sa.height : ℚ) * scale)) ∧
      (∀ x y, x < out.w → y < out.h →
        out.pix x y =
          (mergedCanvas d sa scale).pix (cropX d sa scale + x) (cropY d sa scale + y)) ∧
      ((calc_canvas_size d scale).1 - (cropX d sa scale + out.w) ≤ cropX d sa scale + 1 ∧
        cropX d sa scale ≤ ((calc_canvas_size d scale).1 - (cropX d sa scale + out.w)) + 1) ∧
      ((calc_canvas_size d scale).2 - (cropY d sa scale + out.h) ≤ cropY d sa scale + 1 ∧
        cropY d sa scale ≤ ((calc_canvas_size d scale).2 - (cropY d sa scale + out.h)) + 1) := by
  intro d sa scale out hs h
  obtain ⟨hcz, hfe, hpk, hcrop⟩ := draw_with_scale_ok_elim d sa scale out h
  obtain ⟨hw, hh, hfitx, hfity, hcpix⟩ := crop_ok_elim d sa scale _ out hcrop
  refine ⟨⟨hw, hh⟩, ?_, ?_, ?_⟩
  · intro x y hx hy
    exact hcpix x y (hw ▸ hx) (hh ▸ hy)
  · rw [hw]
    unfold cropX at hfitx ⊢
    omega
  · rw [hh]
    unfold cropY at hfity ⊢
    omega

theorem C6_output_is_centered_scaled_view_witness :
    ((0 : ℚ) < 1 ∧ (draw_with_scale drawer1 saOrder 1).isOk = true) ∧
      ((draw_with_scale drawer1 saOrder 1).getD (Img.new 0 0)).w =
        natOfRat ((saOrder.width : ℚ) * 1) :=
  ⟨⟨of_decide_eq_true (by with_unfolding_all rfl), by with_unfolding_all rfl⟩,
   (C6_output_is_centered_scaled_view drawer1 saOrder 1
     ((draw_with_scale drawer1 saOrder 1).getD (Img.new 0 0))
     (of_decide_eq_true (by with_unfolding_all rfl))
     (POut_isOk_elim _ (by with_unfolding_all rfl) (Img.new 0 0))).1.1⟩

/-- C3: for a two-layer composition with one visible layer whose symbol id
is absent from the cache and one valid layer: in strict mode
(`with_raise_error(true)`, i.e. `suppress_failure = false`)
`draw_with_scale` returns the error `SymbolNotFound(symbol_id)` and no
image; with `suppress_failure = true` (the default) the render behaves
exactly as if only the valid layer were present — and in particular
succeeds whenever the centered viewport fits inside the working canvas. -/
theorem C3_strict_fails_suppress_renders_valid_layer :
    ∀ (d : SymbolArtDrawer) (sa : SymbolArt) (scale : ℚ) (a b : Layer),
      (sa.layers = [a, b] ∨ sa.layers = [b, a]) →
      a.hidden = false →
      d.resource.getImage a.symbolId = Option.none →
      layerOk d scale b →
      d.chunkSize ≠ 0 →
      (draw_with_scale (with_raise_error d true) sa scale =
        POut.err (SARError.symbolNotFound a.symbolId)) ∧
      (d.suppressFailure = true →
        draw_with_scale d sa scale =
          draw_with_scale d (SymbolArt.mk sa.width sa.height [b]) scale ∧
        (cropX d sa scale + (calc_view_size sa scale).1 ≤ (calc_canvas_size d scale).1 →
          cropY d sa scale + (calc_view_size sa scale).2 ≤ (calc_canvas_size d scale).2 →
          (draw_with_scale d sa scale).isOk = true)) := by
  intro d sa scale a b hlay hHid hImg hb hcz
  constructor
  · exact draw_with_scale_err (with_raise_error d true) sa scale _ hcz
      (firstError_drawResults_two_layers (with_raise_error d true) sa scale a b hlay
        hHid hImg hb hcz rfl)
  · intro hSup
    refine ⟨draw_two_layers_suppressed d sa scale a b hlay hHid hImg hcz hSup, ?_⟩
    intro hfitx hfity
    obtain ⟨hfe, hpk⟩ := drawResults_no_err d sa scale (Or.inl hSup) (by omega)
    rw [draw_with_scale_eq_crop d sa scale hcz hfe hpk,
      crop_eq_ok d sa scale _ hfitx hfity]
    rfl

theorem C3_strict_fails_suppress_renders_valid_layer_witness :
    (drawer1.chunkSize ≠ 0 ∧ layerOk drawer1 1 layerA) ∧
      draw_with_scale (with_raise_error drawer1 true)
          (SymbolArt.mk 1 1 [badLayer7, layerA]) 1 =
        POut.err (SARError.symbolNotFound badLayer7.symbolId) :=
  ⟨⟨by decide, of_decide_eq_true (by with_unfolding_all rfl)⟩,
   (C3_strict_fails_suppress_renders_valid_layer drawer1
     (SymbolArt.mk 1 1 [badLayer7, layerA]) 1 badLayer7 layerA (Or.inl rfl) rfl
     (by with_unfolding_all rfl)
     (of_decide_eq_true (by with_unfolding_all rfl)) (by decide)).1⟩

/-- C8: the pixel output of `draw_with_scale` is deterministic and
independent of worker count, thread scheduling, and chunk completion order:
the pipeline is a pure function of its inputs, and for ANY permutation of
the chunk-result list (modelling an arbitrary arrival order of the parallel
workers) the merge — which sorts by chunk index — yields the identical
bitmap; only the identity of the reported error may depend on arrival
order, and the error outcomes carry no pixels. -/
theorem C8_output_schedule_independent :
    ∀ (d : SymbolArtDrawer) (sa : SymbolArt) (scale : ℚ)
      (rs : List (Nat × POut Img)),
      d.chunkSize ≠ 0 →
      rs.Perm (drawResults d sa scale) →
      bitmapOf (finishDraw d sa scale rs) = bitmapOf (draw_with_scale d sa scale) := by
  intro d sa scale rs hcz hperm
  rw [draw_with_scale_def d sa scale hcz]
  unfold finishDraw
  cases hfe : firstError rs with
  | some e =>
    obtain ⟨p, hp, hpe⟩ := firstError_some_mem rs e hfe
    have hpc : p ∈ drawResults d sa scale := hperm.mem_iff.mp hp
    cases hfe' : firstError (drawResults d sa scale) with
    | some e' => rfl
    | none =>
      have := (firstError_eq_none _).mp hfe' p hpc
      rw [hpe] at this
      cases this
  | none =>
    have hfe' : firstError (drawResults d sa scale) = Option.none := by
      refine (firstError_eq_none _).mpr ?_
      intro p hp
      exact (firstError_eq_none rs).mp hfe p (hperm.mem_iff.mpr hp)
    rw [hfe']
    cases hpk : hasPanik rs with
    | true =>
      obtain ⟨p, hp, hpe⟩ := hasPanik_true_mem rs hpk
      have hpc : p ∈ drawResults d sa scale := hperm.mem_iff.mp hp
      cases hpk' : hasPanik (drawResults d sa scale) with
      | true => rfl
      | false =>
        have := (hasPanik_eq_false _).mp hpk' p hpc
        rw [hpe] at this
        cases this
    | false =>
      have hpk' : hasPanik (drawResults d sa scale) = false := by
        refine (hasPanik_eq_false _).mpr ?_
        intro p hp
        exact (hasPanik_eq_false rs).mp hpk p (hperm.mem_iff.mpr hp)
      rw [hpk']
      have hpermOk : (collectOk rs).Perm (collectOk (drawResults d sa scale)) := by
        rw [collectOk_eq_filterMap, collectOk_eq_filterMap]
        exact hperm.filterMap _
      have hndC : List.Pairwise (fun p q => p.1 ≠ q.1)
          (collectOk (drawResults d sa scale)) :=
        (collectOk_pairwise _ (drawResults_pairwise_lt d sa scale)).imp
          (fun h => Nat.ne_of_lt h)
      have hnd : List.Pairwise (fun p q => p.1 ≠ q.1) (collectOk rs) := by
        refine (hpermOk.pairwise_iff ?_).mpr hndC
        exact fun h => Ne.symm h
      have hml : mergeList rs = mergeList (drawResults d sa scale) := by
        unfold mergeList
        exact insertionSort_eq_of_perm _ _ hpermOk hnd
      unfold mergeResults
      rw [hml]

theorem C8_output_schedule_independent_witness :
    drawer1.chunkSize ≠ 0 ∧
      bitmapOf (finishDraw drawer1 saOrder 1 (drawResults drawer1 saOrder 1).reverse) =
        bitmapOf (draw_with_scale drawer1 saOrder 1) :=
  ⟨by decide,
   C8_output_schedule_independent drawer1 saOrder 1
     (drawResults drawer1 saOrder 1).reverse (by decide)
     (List.reverse_perm (drawResults drawer1 saOrder 1))⟩

end SarCore
